import Mathlib

/-!
Verification development for the NWS forecast-logger core
(nws_auto_logger.py / accuweather_logger.py).

The log is a CSV of string-valued rows.  We embed a row as a structure of
strings, except that the `bias_corrected_prediction` cell is modelled as
`Option ℚ` (a blank cell is `none`; Python's one-decimal formatting of the
stored float is abstracted to the exact rational, which no claim depends on).
Numeric cells (`predicted_high`, `actual_high`) stay strings and are parsed
by `floatOrNone`, the model of `_float_or_none` (plain decimal literals; the
exotic float syntaxes `inf`/`nan`/exponents never written by the logger are
out of the modelled subset).

Python string primitives (`strip`, `upper`, `split`, `zfill`, `int(...)`,
the two regexes of `_minutes_from_hhmm_ampm`) are modelled as total
functions on `List Char` restricted to ASCII, which covers every string the
logger produces or parses.
-/

/-- Python whitespace for `str.strip` / regex `\s` (ASCII subset). -/
def isSpaceChar (c : Char) : Bool :=
  c = ' ' || c = '\t' || c = '\n' || c = '\r' || c = '\x0b' || c = '\x0c'

def isAsciiDigitChar (c : Char) : Bool := '0' ≤ c && c ≤ '9'

def digitVal (c : Char) : Nat := c.toNat - '0'.toNat

/-- Python `str.upper` on one character (ASCII subset). -/
def pyUpperChar (c : Char) : Char :=
  if 'a' ≤ c && c ≤ 'z' then Char.ofNat (c.toNat - 32) else c

/-- Regex `\w` (ASCII subset): letters, digits, underscore. -/
def isWordChar (c : Char) : Bool :=
  isAsciiDigitChar c || ('A' ≤ c && c ≤ 'Z') || ('a' ≤ c && c ≤ 'z') || c = '_'

/-- Python `str.strip()` on a character list. -/
def stripL (l : List Char) : List Char :=
  ((l.dropWhile isSpaceChar).reverse.dropWhile isSpaceChar).reverse

/-- Python `str.strip()`. -/
def stripS (s : String) : String := String.mk (stripL s.toList)

/-- Python `str.upper()` on a character list. -/
def upperL (l : List Char) : List Char := l.map pyUpperChar

/-- Decimal digits to the natural number they denote. -/
def natOfDigits (l : List Char) : Nat :=
  l.foldl (fun a c => a * 10 + digitVal c) 0

/-- Nonempty all-digit list to its value, else `none`. -/
def digitsToNat (l : List Char) : Option Nat :=
  if l.isEmpty || !(l.all isAsciiDigitChar) then none else some (natOfDigits l)

/-- Python `int(s)` on a string (ASCII decimal subset: optional surrounding
whitespace, optional sign, nonempty digit run).  `none` models the
`ValueError` that the callers catch. -/
def pyIntOptL (l : List Char) : Option Int :=
  match stripL l with
  | [] => none
  | c :: rest =>
    if c = '-' then (digitsToNat rest).map (fun n => -(n : Int))
    else if c = '+' then (digitsToNat rest).map (fun n => (n : Int))
    else (digitsToNat (c :: rest)).map (fun n => (n : Int))

def pyIntOpt (s : String) : Option Int := pyIntOptL s.toList

/-!  Exact rational arithmetic.  The `Rat` field operations of the ambient
library are `@[irreducible]`, so the model uses its own `mkRat`-based
implementations of the four operations it needs; they are the exact
operations on ℚ, only packaged so that concrete runs reduce. -/

def qNeg (a : ℚ) : ℚ := mkRat (-a.num) a.den

def qAdd (a b : ℚ) : ℚ := mkRat (a.num * (b.den : Int) + b.num * (a.den : Int)) (a.den * b.den)

def qSub (a b : ℚ) : ℚ := mkRat (a.num * (b.den : Int) - b.num * (a.den : Int)) (a.den * b.den)

/-- Exact division (never applied to a zero divisor by the model). -/
def qDiv (a b : ℚ) : ℚ :=
  let n := a.num * (b.den : Int)
  let d := (a.den : Int) * b.num
  if d < 0 then mkRat (-n) (-d).toNat else mkRat n d.toNat

/-- Sum of a list of rationals. -/
def qSum (l : List ℚ) : ℚ := l.foldl qAdd (mkRat 0 1)

/-- Arithmetic mean (`sum(xs) / len(xs)`); callers guard nonemptiness. -/
def meanQ (l : List ℚ) : ℚ := qDiv (qSum l) (mkRat (l.length : Int) 1)

/-- Decimal literal (digits, optional point): the subset of Python `float`
syntax the logger ever writes or reads. -/
def decimalToRat (l : List Char) : Option ℚ :=
  let ip := l.takeWhile isAsciiDigitChar
  let rest := l.dropWhile isAsciiDigitChar
  match rest with
  | [] => if ip.isEmpty then none else some (mkRat (natOfDigits ip : Int) 1)
  | c :: fp =>
    if c = '.' && fp.all isAsciiDigitChar && !(ip.isEmpty && fp.isEmpty) then
      some (mkRat (natOfDigits ip * 10 ^ fp.length + natOfDigits fp : Int) (10 ^ fp.length))
    else none

/-- Model of `_float_or_none`: parse a CSV cell as a number, `none` on
blank or malformed cells (the NaN case of the source cannot arise in the
decimal subset). -/
def floatOrNone (s : String) : Option ℚ :=
  match stripL s.toList with
  | [] => none
  | c :: rest =>
    if c = '-' then (decimalToRat rest).map qNeg
    else if c = '+' then decimalToRat rest
    else decimalToRat (c :: rest)

/-- One row of the log (`BASE_HEADER + [BCP_FIELD]` plus the `source`
column contributed by the AccuWeather file). -/
structure Row where
  timestamp : String
  target_date : String
  forecast_or_actual : String
  forecast_time : String
  predicted_high : String
  forecast_detail : String
  cli_date : String
  actual_high : String
  high_time : String
  bias_corrected_prediction : Option ℚ
  source : String
deriving DecidableEq, Repr

/-- Model of `_minutes_from_forecast_time_cell`: the cell is
`YYYY-MM-DD HH:MM:SS`; read characters 11-12 and 14-15 as numbers. -/
def minutesFromForecastTimeCell (s : String) : Option Int :=
  let l := s.toList
  if l.length < 16 then none
  else
    match pyIntOptL ((l.drop 11).take 2), pyIntOptL ((l.drop 14).take 2) with
    | some hh, some mm =>
      if 0 ≤ hh && hh ≤ 23 && 0 ≤ mm && mm ≤ 59 then some (hh * 60 + mm) else none
    | _, _ => none

/-- Scan for the first case-insensitive `AM`/`PM` with word boundaries on
both sides (regex search for the word AM or PM), returning it uppercased. -/
def findAmPmAux (prev : Option Char) (l : List Char) : Option String :=
  match l with
  | [] => none
  | c :: rest =>
    let boundaryBefore := match prev with | none => true | some p => !isWordChar p
    let hit : Option String :=
      if boundaryBefore then
        match rest with
        | m :: after =>
          if (pyUpperChar c = 'A' || pyUpperChar c = 'P') && pyUpperChar m = 'M'
              && (match after with | [] => true | a :: _ => !isWordChar a)
          then some (if pyUpperChar c = 'A' then "AM" else "PM") else none
        | [] => none
      else none
    match hit with
    | some r => some r
    | none => findAmPmAux (some c) rest

def findAmPm (l : List Char) : Option String := findAmPmAux none l

/-- Does the deletion pattern (whitespace run, AM or PM case-insensitive,
whitespace run) match at the head?  If so return the remainder after it. -/
def matchSubPatAt (l : List Char) : Option (List Char) :=
  match l.dropWhile isSpaceChar with
  | a :: m :: rest =>
    if (pyUpperChar a = 'A' || pyUpperChar a = 'P') && pyUpperChar m = 'M'
    then some (rest.dropWhile isSpaceChar) else none
  | _ => none

/-- Delete every (non-overlapping, leftmost-first) occurrence of the
pattern above, as the substitution in `_minutes_from_hhmm_ampm` does. -/
def removeAmPmAux : Nat → List Char → List Char
  | 0, l => l
  | _ + 1, [] => []
  | fuel + 1, c :: rest =>
    match matchSubPatAt (c :: rest) with
    | some rem => removeAmPmAux fuel rem
    | none => c :: removeAmPmAux fuel rest

def removeAmPm (l : List Char) : List Char := removeAmPmAux (l.length + 1) l

/-- Full match of one-or-two digits, a colon, exactly two digits, with
optional surrounding whitespace; returns (hours, minutes-part). -/
def matchHMM (l : List Char) : Option (Nat × Nat) :=
  let t := l.dropWhile isSpaceChar
  let ds := t.takeWhile isAsciiDigitChar
  let rest := t.dropWhile isAsciiDigitChar
  if ds.length = 0 || 2 < ds.length then none
  else match rest with
    | ':' :: m1 :: m2 :: tail =>
      if isAsciiDigitChar m1 && isAsciiDigitChar m2 && tail.all isSpaceChar
      then some (natOfDigits ds, natOfDigits [m1, m2])
      else none
    | _ => none

/-- Model of `_minutes_from_hhmm_ampm`: parse `H:MM` or `HH:MM` with an
optional `AM`/`PM`, returning minutes since midnight. -/
def minutesFromHhmmAmpm (s : String) : Option Int :=
  if s.isEmpty then none
  else
    let t := stripL s.toList
    let ap := findAmPm t
    let t2 := match ap with | some _ => removeAmPm t | none => t
    match matchHMM t2 with
    | none => none
    | some (hh, mm) =>
      let hh2 : Nat := match ap with
        | some a => (hh % 12) + (if a = "PM" then 12 else 0)
        | none => hh
      if hh2 ≤ 23 && mm ≤ 59 then some ((hh2 : Int) * 60 + mm) else none

/-!  Log-store predicates (nws_auto_logger.py reads of `CSV_FILE`). -/

/-- The row predicate of `actual_exists_for_date` / the upsert search:
an Actual row whose `cli_date` is the given date. -/
def actCliP (d : String) (r : Row) : Bool :=
  r.forecast_or_actual == "actual" && r.cli_date == d

/-- Model of `actual_exists_for_date`. -/
def actualExistsForDate (log : List Row) (d : String) : Bool := log.any (actCliP d)

/-- A Forecast row for the given `target_date`. -/
def isFcForDate (d : String) (r : Row) : Bool :=
  r.forecast_or_actual == "forecast" && r.target_date == d

/-- Model of `_get_last_forecast_row_for_date`: last matching row in file order. -/
def getLastForecastRowForDate (log : List Row) (d : String) : Option Row :=
  log.foldl (fun acc r => if isFcForDate d r then some r else acc) none

/-- Model of `forecast_changed_since_last`. -/
def forecastChangedSinceLast (log : List Row) (d newVal : String) : Bool :=
  match getLastForecastRowForDate log d with
  | none => true
  | some last => last.predicted_high != newVal

def forecastRowsFor (log : List Row) (d : String) : List Row := log.filter (isFcForDate d)

/-!  Bias engine (`_compute_avg_bias_excluding`,
`_compute_avg_bias_and_today_mean`, `_compute_today_pre_high_mean`).
The Python code groups rows into an insertion-ordered dict `by_date`;
`groupDates`/`groupFor` reproduce that grouping. -/

/-- The date under which a row is grouped: `cli_date` for Actual rows,
`target_date` otherwise; empty dates are skipped. -/
def rowDateKey (r : Row) : Option String :=
  if r.forecast_or_actual == "actual" then
    (if r.cli_date == "" then none else some r.cli_date)
  else (if r.target_date == "" then none else some r.target_date)

/-- Keys of `by_date` in first-insertion order. -/
def groupDates (rows : List Row) : List String :=
  rows.foldl (fun acc r =>
    match rowDateKey r with
    | some d => if acc.contains d then acc else acc ++ [d]
    | none => acc) []

/-- The rows grouped under a date, in file order. -/
def groupFor (rows : List Row) (d : String) : List Row :=
  rows.filter (fun r => rowDateKey r == some d)

/-- `next((x for x in rs if actual and parseable actual_high), None)`. -/
def firstQualActual (rs : List Row) : Option Row :=
  rs.find? (fun r => r.forecast_or_actual == "actual" && (floatOrNone r.actual_high).isSome)

/-- `high_min`: parse the (stripped) `high_time` of the Actual row. -/
def highMinOf (act : Row) : Option Int :=
  let ht := stripS act.high_time
  if ht == "" then none else minutesFromHhmmAmpm ht

/-- One iteration of the `fc_vals` loop: skip non-forecast rows and
unparseable values; when the high time is known, also skip rows whose
forecast time is unparseable or later than it. -/
def fcValStep (highMin : Option Int) (acc : List ℚ) (x : Row) : List ℚ :=
  if x.forecast_or_actual != "forecast" then acc
  else match floatOrNone x.predicted_high with
    | none => acc
    | some ph =>
      match highMin with
      | none => acc ++ [ph]
      | some hm =>
        match minutesFromForecastTimeCell x.forecast_time with
        | none => acc
        | some fm => if hm < fm then acc else acc ++ [ph]

/-- The `fc_vals` loop: parseable forecast values of the group, filtered to
those issued no later than the high time when that is known. -/
def dailyFcVals (rs : List Row) (highMin : Option Int) : List ℚ :=
  rs.foldl (fcValStep highMin) []

/-- The shared per-day body of the two average-bias loops: the day's bias
`actual_high - mean(fc_vals)` together with `mean(fc_vals)`, defined when
the day has a qualifying Actual and a nonempty forecast set. -/
def dailyBiasAndMean (rs : List Row) : Option (ℚ × ℚ) :=
  match firstQualActual rs with
  | none => none
  | some act =>
    match floatOrNone act.actual_high with
    | none => none
    | some ah =>
      let vals := dailyFcVals rs (highMinOf act)
      if vals.isEmpty then none else some (qSub ah (meanQ vals), meanQ vals)

/-- The daily bias of a day's row group. -/
def dailyBias (rs : List Row) : Option ℚ := (dailyBiasAndMean rs).map Prod.fst

/-- Model of `_compute_avg_bias_excluding` (pass the empty string to
exclude nothing, as the source does). -/
def computeAvgBiasExcluding (rows : List Row) (excl : String) : Option ℚ :=
  let biases := (groupDates rows).foldl (fun acc d =>
    if excl != "" && d == excl then acc
    else match dailyBiasAndMean (groupFor rows d) with
      | some p => acc ++ [p.1]
      | none => acc) []
  if biases.isEmpty then none else some (meanQ biases)

/-- Loop body of `_compute_avg_bias_and_today_mean`. -/
def cabStep (rows : List Row) (today : String) (st : List ℚ × Option ℚ) (d : String) :
    List ℚ × Option ℚ :=
  match dailyBiasAndMean (groupFor rows d) with
  | none => st
  | some p => (st.1 ++ [p.1], if d == today then some p.2 else st.2)

/-- Model of `_compute_avg_bias_and_today_mean`. -/
def computeAvgBiasAndTodayMean (rows : List Row) (today : String) : Option ℚ × Option ℚ :=
  let st := (groupDates rows).foldl (cabStep rows today) ([], none)
  ((if st.1.isEmpty then none else some (meanQ st.1)), st.2)

/-- Model of `_compute_today_pre_high_mean`. -/
def computeTodayPreHighMean (rows : List Row) (today : String) : Option ℚ :=
  let rs := rows.filter (fun r =>
    (r.forecast_or_actual == "forecast" && r.target_date == today) ||
    (r.forecast_or_actual == "actual" && r.cli_date == today))
  match firstQualActual rs with
  | none => none
  | some act =>
    let vals := dailyFcVals rs (highMinOf act)
    if vals.isEmpty then none else some (meanQ vals)

/-!  Selection of "the latest today-forecast row".  The source filters the
rows, sorts them (stably) by `timestamp or forecast_time or ""` and takes
the last element, then mutates that row object in place.  Equivalently it
picks the last row in file order among those attaining the maximal key;
the model selects that index.  The selection depends only on the
signature (kind, target_date, predicted_high, key) of each row, which the
model makes explicit so that rewriting another field preserves it. -/

def fcKeyOf (r : Row) : String := if r.timestamp != "" then r.timestamp else r.forecast_time

def rowSig (r : Row) : String × String × String × String :=
  (r.forecast_or_actual, r.target_date, r.predicted_high, fcKeyOf r)

def sigQual (d : String) (s : String × String × String × String) : Bool :=
  s.1 == "forecast" && s.2.1 == d && (floatOrNone s.2.2.1).isSome

def sigKey (s : String × String × String × String) : String := s.2.2.2

/-- Python string comparison (lexicographic by code point). -/
def listLtB : List Char → List Char → Bool
  | [], [] => false
  | [], _ :: _ => true
  | _ :: _, [] => false
  | a :: xs, b :: ys =>
    if a.toNat < b.toNat then true
    else if b.toNat < a.toNat then false
    else listLtB xs ys

def strLtB (a b : String) : Bool := listLtB a.toList b.toList

def latestIdxAux (d : String) :
    List (String × String × String × String) → Nat → Option (Nat × String) → Option (Nat × String)
  | [], _, best => best
  | s :: rest, k, best =>
    latestIdxAux d rest (k + 1)
      (if sigQual d s then
        match best with
        | none => some (k, sigKey s)
        | some (j, kb) => if strLtB (sigKey s) kb then some (j, kb) else some (k, sigKey s)
      else best)

def latestFcIdx (log : List Row) (d : String) : Option Nat :=
  (latestIdxAux d (log.map rowSig) 0 none).map Prod.fst

/-- Index and row of the latest today-forecast row, if any. -/
def latestFc (log : List Row) (d : String) : Option (Nat × Row) :=
  (latestFcIdx log d).bind (fun i => (log.get? i).map (fun r => (i, r)))

/-- Core of `write_today_bcp_snapshot_if_after_6pm` past the hour gate:
`some` of the rewritten row list exactly when the source would call
`_write_all_rows`; `none` when it returns without writing. -/
def wtbsCore (log : List Row) (d : String) : Option (List Row) :=
  match latestFc log d with
  | none => none
  | some (i, r) =>
    if r.bias_corrected_prediction.isSome then none
    else
      match computeAvgBiasAndTodayMean log d with
      | (some b, some m) => some (log.set i { r with bias_corrected_prediction := some (qAdd m b) })
      | _ => none

/-- Model of `write_today_bcp_snapshot_if_after_6pm` on a single-file row
list (`hour` is the local hour of `now`). -/
def wtbsStep (log : List Row) (hour : Nat) (d : String) : List Row :=
  if hour < 18 then log
  else match wtbsCore log d with
    | some l2 => l2
    | none => log

/-- The freeze block inside `log_actual_today_if_after_6pm_local`
(lines 533-560): average bias excluding today plus today's pre-high mean,
written into the latest today-forecast row when its BCP cell is blank.
`some` exactly when the source writes the file. -/
def logActualFreeze (rows : List Row) (d : String) : Option (List Row) :=
  match computeAvgBiasExcluding rows d, computeTodayPreHighMean rows d with
  | some b, some m =>
    (match latestFc rows d with
     | none => none
     | some (i, r) =>
       if r.bias_corrected_prediction.isSome then none
       else some (rows.set i { r with bias_corrected_prediction := some (qAdd m b) }))
  | _, _ => none

/-!  Ingestion steps. -/

def mkForecastRow (ts d newVal detail : String) : Row :=
  ⟨ts, d, "forecast", ts, newVal, detail, "", "", "", none, ""⟩

/-- Model of `log_forecast` past the fetch: `d` is today's date, `ts` the
current local time stamp, `newVal` the observed temperature string. -/
def logForecastStep (log : List Row) (d ts newVal detail : String) : List Row :=
  if actualExistsForDate log d then log
  else if !forecastChangedSinceLast log d newVal then log
  else log ++ [mkForecastRow ts d newVal detail]

def mkActualRow (ts d temp timeClean : String) : Row :=
  ⟨ts, d, "actual", "", "", "", d, temp, timeClean, none, ""⟩

/-!  The two-file state: `_read_all_rows` concatenates the primary file
with `accuweather_log.csv`; every writer writes only the primary file. -/

structure LogFiles where
  primary : List Row
  accu : List Row
deriving DecidableEq, Repr

/-- Model of `_read_all_rows` (row part). -/
def readAllRows (fs : LogFiles) : List Row := fs.primary ++ fs.accu

/-- The in-place overwrite of the matched Actual row: the source assigns
the listed base fields (keeping any extra keys such as `source` and the
BCP cell) and only when the new temperature or time differs. -/
def updActual (ts d temp timeClean : String) (r : Row) : Row :=
  if r.actual_high != temp || r.high_time != timeClean then
    { r with timestamp := ts, target_date := d, forecast_or_actual := "actual",
             forecast_time := "", predicted_high := "", forecast_detail := "",
             cli_date := d, actual_high := temp, high_time := timeClean }
  else r

/-- The `for r in rows: ... break` search of `upsert_actual_row`: rewrite
the first Actual row for the date in place; `none` when no row matches. -/
def upsertReplace (ts d temp timeClean : String) : List Row → Option (List Row)
  | [] => none
  | r :: rest =>
    if actCliP d r then some (updActual ts d temp timeClean r :: rest)
    else (upsertReplace ts d temp timeClean rest).map (fun l => r :: l)

/-- The row-list transformation of `upsert_actual_row`: replace the first
Actual row for the date in place, else append a fresh Actual row. -/
def upsertList (rows : List Row) (ts d temp timeClean : String) : List Row :=
  match upsertReplace ts d temp timeClean rows with
  | some rows2 => rows2
  | none => rows ++ [mkActualRow ts d temp timeClean]

/-- Model of `upsert_actual_row`: read both files, upsert, write the
result to the primary file only. -/
def upsertActualRowFS (fs : LogFiles) (ts d temp timeClean : String) : LogFiles :=
  ⟨upsertList (readAllRows fs) ts d temp timeClean, fs.accu⟩

/-- Model of `log_actual_today_if_after_6pm_local` past the fetch/parse:
before 6pm it is a no-op; otherwise append a provisional Actual unless one
exists in the primary file, then run the freeze block over the re-read
merged rows, writing them to the primary file only when the freeze fires. -/
def logActualTodayFS (fs : LogFiles) (hour : Nat) (ts d temp timeClean : String) : LogFiles :=
  if hour < 18 then fs
  else
    let primary1 := if actualExistsForDate fs.primary d then fs.primary
                    else fs.primary ++ [mkActualRow ts d temp timeClean]
    match logActualFreeze (primary1 ++ fs.accu) d with
    | some newRows => ⟨newRows, fs.accu⟩
    | none => ⟨primary1, fs.accu⟩

/-- Model of `write_today_bcp_snapshot_if_after_6pm` over the two files. -/
def wtbsFS (fs : LogFiles) (hour : Nat) (d : String) : LogFiles :=
  if hour < 18 then fs
  else match wtbsCore (readAllRows fs) d with
    | some l2 => ⟨l2, fs.accu⟩
    | none => fs

/-- Model of `log_forecast_for_tomorrow` past the fetch: the change check
reads the primary file, the bias average reads the merged rows, and the
appended row carries `float(new_val) + avg_bias_all` as its BCP. -/
def logForecastForTomorrowFS (fs : LogFiles) (tm ts newVal detail : String) : LogFiles :=
  if !forecastChangedSinceLast fs.primary tm newVal then fs
  else
    let bcp : Option ℚ :=
      match computeAvgBiasExcluding (readAllRows fs) "" with
      | none => none
      | some b =>
        match floatOrNone newVal with
        | none => none
        | some v => some (qAdd v b)
    ⟨fs.primary ++ [⟨ts, tm, "forecast", ts, newVal, detail, "", "", "", bcp, ""⟩], fs.accu⟩

/-!  Header bookkeeping of `_read_all_rows` / `_upgrade_header_to_include_bcp`. -/

def baseHeader : List String :=
  ["timestamp", "target_date", "forecast_or_actual", "forecast_time",
   "predicted_high", "forecast_detail", "cli_date", "actual_high", "high_time"]

def bcpField : String := "bias_corrected_prediction"

/-- The fieldnames accumulated by `_read_all_rows`: it starts from
`BASE_HEADER + [BCP_FIELD]` and appends unseen file fieldnames. -/
def readFieldnames (fileFieldnames : List String) : List String :=
  fileFieldnames.foldl (fun acc fn => if acc.contains fn then acc else acc ++ [fn])
    (baseHeader ++ [bcpField])

/-- `_upgrade_header_to_include_bcp` rewrites the file only when the BCP
column is absent from the fieldnames it is given. -/
def upgradeHeaderWrites (fieldnames : List String) : Bool := !(fieldnames.contains bcpField)

/-- The state effect of `_upgrade_header_to_include_bcp` when invoked on
the merged rows and some fieldnames: a full rewrite of the merged rows to
the primary file when the BCP column is missing, nothing otherwise. -/
def upgradeHeaderFS (fs : LogFiles) (fieldnames : List String) : LogFiles :=
  if fieldnames.contains bcpField then fs else ⟨readAllRows fs, fs.accu⟩

/-!  The operation alphabet of the at-most-one-actual invariant. -/

inductive LogOp where
  | provisional (hour : Nat) (ts d temp timeClean : String)
  | finalize (ts d temp timeClean : String)
deriving DecidableEq, Repr

def applyOp (fs : LogFiles) : LogOp → LogFiles
  | LogOp.provisional h ts d temp tc => logActualTodayFS fs h ts d temp tc
  | LogOp.finalize ts d temp tc => upsertActualRowFS fs ts d temp tc

/-- Number of Actual rows keyed (by `cli_date`) to a date. -/
def countActualCli (l : List Row) (d : String) : Nat := (l.filter (actCliP d)).length

/-!  AccuWeather logger (accuweather_logger.py). -/

/-- Model of `is_after_6pm_local`: `(hour, minute, second) >= (18, 0, 0)`
lexicographically. -/
def isAfter6pmLocal (h m s : Nat) : Bool :=
  decide (18 < h) || (decide (h = 18) && (decide (0 < m) || (decide (m = 0) && decide (0 ≤ s))))

/-- A daily forecast object as consumed by `row_for`: the already
stringified max temperature and the cleaned detail text. -/
structure DayObj where
  maxStr : String
  detail : String
deriving DecidableEq, Repr

def rowForAccu (day : DayObj) (ts tgt : String) : Row :=
  ⟨ts, tgt, "forecast", ts, day.maxStr, day.detail, "", "", "", none, "AccuWeather"⟩

/-- Model of `rows_for_today_and_tomorrow`; the three Booleans are the
results of the CSV queries `actual_already_logged` and
`forecast_already_logged` for today and tomorrow. -/
def rowsForTodayAndTomorrow (daily : List DayObj) (h m s : Nat)
    (ts todayIso tomorrowIso : String)
    (actualLoggedToday fcLoggedToday fcLoggedTomorrow : Bool) : List Row :=
  match daily with
  | d0 :: d1 :: _ =>
    (if !isAfter6pmLocal h m s && !actualLoggedToday && !fcLoggedToday then
      [rowForAccu d0 ts todayIso] else [])
    ++ (if !fcLoggedTomorrow then [rowForAccu d1 ts tomorrowIso] else [])
  | _ => []

/-!  CLI bulletin parser (`_normalize_cli_time`, `_parse_cli_sections`). -/

/-- Python `str.zfill`. -/
def pyZfill (l : List Char) (w : Nat) : List Char :=
  if w ≤ l.length then l
  else match l with
    | c :: rest =>
      if c = '+' || c = '-' then c :: (List.replicate (w - l.length) '0' ++ rest)
      else List.replicate (w - l.length) '0' ++ l
    | [] => List.replicate w '0'

/-- Python `split(":", 1)` (callers guard that a colon is present). -/
def splitColonOnce : List Char → List Char × List Char
  | [] => ([], [])
  | ':' :: rest => ([], rest)
  | c :: rest => let p := splitColonOnce rest; (c :: p.1, p.2)

def natToCharsAux : Nat → Nat → List Char
  | 0, _ => []
  | fuel + 1, n => if n = 0 then [] else natToCharsAux fuel (n / 10) ++ [Char.ofNat (48 + n % 10)]

/-- Decimal rendering of a natural number (Python `str(int)`). -/
def natToChars (n : Nat) : List Char := if n = 0 then ['0'] else natToCharsAux (n + 1) n

def intToChars (i : Int) : List Char :=
  if i < 0 then '-' :: natToChars i.natAbs else natToChars i.toNat

/-- The hour/minute split of `_normalize_cli_time`: split at the first
colon when one is present, else left-pad to four digits, take two and two,
and strip one leading zero from the hour. -/
def hourMmSplit (rawStripped : List Char) : List Char × List Char :=
  if rawStripped.contains ':' then splitColonOnce rawStripped
  else
    let digits := pyZfill rawStripped 4
    let hh := digits.take 2
    (if hh.head? = some '0' then hh.drop 1 else hh, digits.drop 2)

/-- Model of `_normalize_cli_time`. -/
def normalizeCliTime (raw : String) (ampm : Option String) : String :=
  let rawL := stripL raw.toList
  let ap := upperL (stripL (ampm.getD "").toList)
  let p := hourMmSplit rawL
  match pyIntOptL p.1 with
  | none => String.mk rawL
  | some hi =>
    let clean := intToChars hi ++ [':'] ++ p.2
    String.mk (stripL (clean ++ [' '] ++ ap))

/-- The `_TIME_TOKEN` regex: three-or-four digits, or `H:MM` / `HH:MM`. -/
def timeTokenMatch (l : List Char) : Bool :=
  ((l.length == 3 || l.length == 4) && l.all isAsciiDigitChar) ||
  (match l with
   | [a, ':', c, d] => isAsciiDigitChar a && isAsciiDigitChar c && isAsciiDigitChar d
   | [a, b, ':', c, d] =>
     isAsciiDigitChar a && isAsciiDigitChar b && isAsciiDigitChar c && isAsciiDigitChar d
   | _ => false)

/-- Python `str.isdigit` (ASCII subset). -/
def pyIsDigitStr (s : String) : Bool := !s.toList.isEmpty && s.toList.all isAsciiDigitChar

def splitWsAux : List Char → List Char → List (List Char)
  | [], cur => if cur.isEmpty then [] else [cur.reverse]
  | c :: rest, cur =>
    if isSpaceChar c then
      (if cur.isEmpty then splitWsAux rest [] else cur.reverse :: splitWsAux rest [])
    else splitWsAux rest (c :: cur)

/-- Python `str.split()` with no separator: split on whitespace runs. -/
def splitWs (l : List Char) : List (List Char) := splitWsAux l []

def splitLinesAux : List Char → List Char → List (List Char)
  | [], cur => if cur.isEmpty then [] else [cur.reverse]
  | '\r' :: '\n' :: rest, cur => cur.reverse :: splitLinesAux rest []
  | '\r' :: rest, cur => cur.reverse :: splitLinesAux rest []
  | '\n' :: rest, cur => cur.reverse :: splitLinesAux rest []
  | c :: rest, cur => splitLinesAux rest (c :: cur)

/-- Python `str.splitlines` (newline, carriage return, CRLF). -/
def splitLines (l : List Char) : List (List Char) := splitLinesAux l []

def listBeginsWith : List Char → List Char → Bool
  | [], _ => true
  | _ :: _, [] => false
  | p :: ps, c :: cs => p == c && listBeginsWith ps cs

/-- Substring test (`"MAXIMUM" in line_up`). -/
def containsSeq (pat : List Char) : List Char → Bool
  | [] => pat.isEmpty
  | c :: rest => listBeginsWith pat (c :: rest) || containsSeq pat rest

def pyIndexOfAux (x : String) : List String → Nat → Option Nat
  | [], _ => none
  | s :: rest, k => if s == x then some k else pyIndexOfAux x rest (k + 1)

/-- Python `list.index` (`none` models the caught `ValueError`). -/
def pyIndexOf (l : List String) (x : String) : Option Nat := pyIndexOfAux x l 0

/-- The body handling one `MAXIMUM` line of `_parse_cli_sections`, on the
whitespace-split tokens of the upper-cased line: locate `MAXIMUM`, demand
an all-digits temperature and a time token, take an optional AM/PM. -/
def maximumParse (parts : List String) : Option (String × String) :=
  match pyIndexOf parts "MAXIMUM" with
  | none => none
  | some i =>
    let temp : Option String :=
      match parts.get? (i + 1) with
      | some t => if pyIsDigitStr t then some t else none
      | none => none
    let tkn : Option String :=
      match parts.get? (i + 2) with
      | some t => if timeTokenMatch t.toList then some t else none
      | none => none
    let ampm : Option String :=
      match parts.get? (i + 3) with
      | some t => if t == "AM" || t == "PM" then some t else none
      | none => none
    match temp, tkn with
    | some te, some tk => some (te, normalizeCliTime tk ampm)
    | _, _ => none

structure CliState where
  current : Option Bool
  today : Option (String × String)
  yday : Option (String × String)
deriving DecidableEq, Repr

/-- One line of the `_parse_cli_sections` loop.  A line starting with a
section keyword only switches the current section (any `MAXIMUM` on that
same line is skipped by the `continue`). -/
def cliLineStep (st : CliState) (line : List Char) : CliState :=
  let lineUp := upperL (stripL line)
  if listBeginsWith "TODAY".toList lineUp then { st with current := some true }
  else if listBeginsWith "YESTERDAY".toList lineUp then { st with current := some false }
  else match st.current with
    | none => st
    | some isToday =>
      if containsSeq "MAXIMUM".toList lineUp then
        match maximumParse ((splitWs lineUp).map String.mk) with
        | none => st
        | some pr =>
          let st1 := if isToday && st.today.isNone then { st with today := some pr } else st
          if !isToday && st1.yday.isNone then { st1 with yday := some pr } else st1
      else st

/-- Model of `_parse_cli_sections`: the (TODAY, YESTERDAY) results. -/
def parseCliSections (txt : String) : Option (String × String) × Option (String × String) :=
  let fin := (splitLines txt.toList).foldl cliLineStep ⟨none, none, none⟩
  (fin.today, fin.yday)

/-!  Spec-side definitions, written from the specification's wording, to be
compared with the definitions above that embed the source. -/

/-- Modelled from the spec (4.5): the values of the pre-high forecast set of
a day's row group — every Forecast row whose `forecast_time` is at or
before `high_time`, or all of the date's forecasts when `high_time` is
unparseable. -/
def specPreHighVals (rs : List Row) (act : Row) : List ℚ :=
  (rs.filter (fun x => x.forecast_or_actual == "forecast" &&
    (match highMinOf act with
     | none => true
     | some hm =>
       match minutesFromForecastTimeCell x.forecast_time with
       | some fm => decide (fm ≤ hm)
       | none => false))).filterMap (fun x => floatOrNone x.predicted_high)

/-- Modelled from the spec (4.5): daily bias =
`actual_high - mean(pre-high forecast set)`, defined only when the set is
non-empty. -/
def specDailyBias (rs : List Row) : Option ℚ :=
  match firstQualActual rs with
  | none => none
  | some act =>
    match floatOrNone act.actual_high with
    | none => none
    | some ah =>
      let vals := specPreHighVals rs act
      if vals.isEmpty then none else some (qSub ah (meanQ vals))

/-- Modelled from the spec (4.5): `mean(pre-high forecasts for D)`; for a
date with no Actual every forecast of the date is pre-high. -/
def specMeanPreHighForDate (rows : List Row) (d : String) : Option ℚ :=
  let rs := rows.filter (fun r => r.forecast_or_actual == "forecast" && r.target_date == d)
  let hm : Option Int :=
    match firstQualActual (groupFor rows d) with
    | some act => highMinOf act
    | none => none
  let vals := (rs.filter (fun x =>
    match hm with
    | none => true
    | some h =>
      match minutesFromForecastTimeCell x.forecast_time with
      | some fm => decide (fm ≤ h)
      | none => false)).filterMap (fun x => floatOrNone x.predicted_high)
  if vals.isEmpty then none else some (meanQ vals)

/-- Modelled from the spec (4.5): bias-corrected prediction for day D =
`mean(pre-high forecasts for D) + average_bias` with no date excluded. -/
def specBcpForDate (rows : List Row) (d : String) : Option ℚ :=
  match specMeanPreHighForDate rows d, computeAvgBiasExcluding rows "" with
  | some m, some b => some (qAdd m b)
  | _, _ => none

/-- Modelled from the spec (4.1): compact time normalization — left-pad to
4 digits, split into hour/minute, strip the hour's leading zero,
reassemble as `H:MM`, append the AM/PM marker if present. -/
def specCompactNormalize (t : String) (ap : Option String) : String :=
  let digits := List.replicate (4 - t.toList.length) '0' ++ t.toList
  let hh0 := digits.take 2
  let hh := if hh0.head? = some '0' then hh0.drop 1 else hh0
  let core := hh ++ [':'] ++ digits.drop 2
  match ap with
  | none => String.mk core
  | some a => String.mk (core ++ [' '] ++ a.toList)

/-!  Concrete instances used by scenario conjuncts, witnesses and
counterexamples. -/

/-- Count of occurrences of one row in a list. -/
def countRow (l : List Row) (r : Row) : Nat := (l.filter (fun x => decide (x = r))).length

def sc5act : Row :=
  ⟨"2025-01-10 18:05:00", "2025-01-10", "actual", "", "", "", "2025-01-10", "33", "1:45 PM", none, ""⟩

def sc5f1 : Row :=
  ⟨"2025-01-10 09:00:00", "2025-01-10", "forecast", "2025-01-10 09:00:00", "30", "", "", "", "", none, ""⟩

def sc5f2 : Row :=
  ⟨"2025-01-10 11:00:00", "2025-01-10", "forecast", "2025-01-10 11:00:00", "32", "", "", "", "", none, ""⟩

def sc5f3 : Row :=
  ⟨"2025-01-10 15:00:00", "2025-01-10", "forecast", "2025-01-10 15:00:00", "35", "", "", "", "", none, ""⟩

def sc5rows : List Row := [sc5f1, sc5f2, sc5f3, sc5act]

def c1accuActual : Row :=
  ⟨"2025-01-09 09:00:00", "2025-01-10", "actual", "", "", "", "2025-01-10", "30", "", none, "AccuWeather"⟩

def c1fs : LogFiles := ⟨[], [c1accuActual]⟩

def c4act : Row :=
  ⟨"2025-01-10 18:05:00", "2025-01-10", "actual", "", "", "", "2025-01-10", "33", "", none, ""⟩

def c4f1 : Row :=
  ⟨"2025-01-10 01:00:00", "2025-01-10", "forecast", "2025-01-10 01:00:00", "30", "", "", "", "", none, ""⟩

def c4f2 : Row :=
  ⟨"2025-01-10 02:00:00", "2025-01-10", "forecast", "2025-01-10 02:00:00", "32", "", "", "", "", none, "AccuWeather"⟩

def c4fs : LogFiles := ⟨[c4act, c4f1], [c4f2]⟩

def c6a9 : Row :=
  ⟨"2025-01-09 18:05:00", "2025-01-09", "actual", "", "", "", "2025-01-09", "33", "", none, ""⟩

def c6f9 : Row :=
  ⟨"2025-01-09 10:00:00", "2025-01-09", "forecast", "2025-01-09 10:00:00", "30", "", "", "", "", none, ""⟩

def c6fT : Row :=
  ⟨"2025-01-10 08:00:00", "2025-01-11", "forecast", "2025-01-10 08:00:00", "30", "", "", "", "", none, ""⟩

def c6fs : LogFiles := ⟨[c6a9, c6f9, c6fT], []⟩

def c6fs2 : LogFiles := logForecastForTomorrowFS c6fs "2025-01-11" "2025-01-10 12:00:00" "32" ""

def c8accuAct : Row :=
  ⟨"2025-01-09 09:00:00", "2025-01-10", "actual", "", "", "", "2025-01-10", "30", "", none, "AccuWeather"⟩

def c8fs : LogFiles := ⟨[], [c8accuAct]⟩

def sc3log1 : List Row := logForecastStep [] "2025-01-10" "2025-01-10 09:00:00" "30" ""

def sc3log2 : List Row := logForecastStep sc3log1 "2025-01-10" "2025-01-10 11:00:00" "32" ""

def sc3log3 : List Row := logForecastStep sc3log2 "2025-01-10" "2025-01-10 12:00:00" "32" ""

/-!  Theorems. -/

theorem aux_actCliP_iff (d : String) (r : Row) :
    actCliP d r = true ↔ r.forecast_or_actual = "actual" ∧ r.cli_date = d := by
  simp [actCliP]

theorem aux_actualExists_iff (log : List Row) (d : String) :
    actualExistsForDate log d = true ↔ ∃ r ∈ log, actCliP d r = true := by
  simp [actualExistsForDate, List.any_eq_true]

/-- Claim C2: once an Actual row for date D exists in the log, the same-day
forecast capture `log_forecast` changes nothing — in particular the set of
Forecast rows for D is unchanged by the call. -/
theorem claim_C2_freeze_forecast (log : List Row) (d ts v det : String)
    (h : ∃ r ∈ log, r.forecast_or_actual = "actual" ∧ r.cli_date = d) :
    logForecastStep log d ts v det = log ∧
    forecastRowsFor (logForecastStep log d ts v det) d = forecastRowsFor log d := by
  have hex : actualExistsForDate log d = true := by
    rcases h with ⟨r, hr, h1, h2⟩
    exact (aux_actualExists_iff log d).mpr ⟨r, hr, (aux_actCliP_iff d r).mpr ⟨h1, h2⟩⟩
  constructor
  · simp [logForecastStep, hex]
  · simp [logForecastStep, hex]

theorem claim_C2_witness :
    (∃ r ∈ [sc5act], r.forecast_or_actual = "actual" ∧ r.cli_date = "2025-01-10") ∧
    logForecastStep [sc5act] "2025-01-10" "2025-01-10 12:00:00" "31" "" = [sc5act] ∧
    forecastRowsFor (logForecastStep [sc5act] "2025-01-10" "2025-01-10 12:00:00" "31" "")
        "2025-01-10" = forecastRowsFor [sc5act] "2025-01-10" := by
  have h : ∃ r ∈ [sc5act], r.forecast_or_actual = "actual" ∧ r.cli_date = "2025-01-10" :=
    ⟨sc5act, by decide, by decide, by decide⟩
  have h2 := claim_C2_freeze_forecast [sc5act] "2025-01-10" "2025-01-10 12:00:00" "31" "" h
  exact ⟨h, h2.1, h2.2⟩

/-- Claim C3: the capture paths append a Forecast row only if the observed
`predicted_high` differs from the most recently recorded forecast for the
date (an unchanged value is a no-op), and ingesting 30, 32, 32 for one
date yields exactly the two Forecast rows 30 and 32. -/
theorem claim_C3_value_change_dedup :
    (∀ (log : List Row) (d ts v det : String) (r : Row),
        getLastForecastRowForDate log d = some r → r.predicted_high = v →
        logForecastStep log d ts v det = log) ∧
    (∀ (fs : LogFiles) (tm ts v det : String) (r : Row),
        getLastForecastRowForDate fs.primary tm = some r → r.predicted_high = v →
        logForecastForTomorrowFS fs tm ts v det = fs) ∧
    sc3log2 = sc3log3 ∧
    (forecastRowsFor sc3log3 "2025-01-10").map Row.predicted_high = ["30", "32"] := by
  refine ⟨?_, ?_, by decide, by decide⟩
  · intro log d ts v det r hlast hv
    have hch : forecastChangedSinceLast log d v = false := by
      simp [forecastChangedSinceLast, hlast, hv]
    cases hae : actualExistsForDate log d <;> simp [logForecastStep, hae, hch]
  · intro fs tm ts v det r hlast hv
    have hch : forecastChangedSinceLast fs.primary tm v = false := by
      simp [forecastChangedSinceLast, hlast, hv]
    simp [logForecastForTomorrowFS, hch]

theorem claim_C3_witness :
    getLastForecastRowForDate sc3log2 "2025-01-10" =
      some (mkForecastRow "2025-01-10 11:00:00" "2025-01-10" "32" "") ∧
    (mkForecastRow "2025-01-10 11:00:00" "2025-01-10" "32" "").predicted_high = "32" ∧
    logForecastStep sc3log2 "2025-01-10" "2025-01-10 12:00:00" "32" "" = sc3log2 :=
  ⟨by decide, by decide,
    claim_C3_value_change_dedup.1 sc3log2 "2025-01-10" "2025-01-10 12:00:00" "32" ""
      (mkForecastRow "2025-01-10 11:00:00" "2025-01-10" "32" "") (by decide) (by decide)⟩

/-- Claim C6 counterexample: in state `c6fs` (one completed day with bias 3,
one earlier tomorrow-forecast of 30) the next-day capture of the value 32
writes BCP 32 + 3 = 35 into the appended row, while the spec formula
`mean(pre-high forecasts for tomorrow) + average_bias` gives 34 on the
post-append log (33 on the pre-append log) — the claim fails as stated. -/
theorem claim_C6_counterexample :
    (c6fs2.primary.getLast?).map Row.bias_corrected_prediction = some (some 35) ∧
    specBcpForDate (readAllRows c6fs2) "2025-01-11" = some 34 ∧
    specBcpForDate (readAllRows c6fs) "2025-01-11" = some 33 ∧
    ¬((35 : ℚ) = 34 ∨ (35 : ℚ) = 33) :=
  ⟨by decide, by decide, by decide, by decide⟩

/-- Claim C6 (amended): the BCP written by `log_forecast_for_tomorrow` into
the newly appended row equals the newly observed `predicted_high` plus the
average bias over all completed days (no exclusion) — not the mean of
tomorrow's pre-high forecasts plus that average. -/
theorem claim_C6_tomorrow_bcp (fs : LogFiles) (tm ts v det : String) (q b : ℚ)
    (hch : forecastChangedSinceLast fs.primary tm v = true)
    (hv : floatOrNone v = some q)
    (hb : computeAvgBiasExcluding (readAllRows fs) "" = some b) :
    logForecastForTomorrowFS fs tm ts v det =
      ⟨fs.primary ++ [⟨ts, tm, "forecast", ts, v, det, "", "", "", some (qAdd q b), ""⟩],
       fs.accu⟩ := by
  simp [logForecastForTomorrowFS, hch, hv, hb]

theorem claim_C6_witness :
    forecastChangedSinceLast c6fs.primary "2025-01-11" "32" = true ∧
    floatOrNone "32" = some 32 ∧
    computeAvgBiasExcluding (readAllRows c6fs) "" = some 3 ∧
    logForecastForTomorrowFS c6fs "2025-01-11" "2025-01-10 12:00:00" "32" "" =
      ⟨c6fs.primary ++ [⟨"2025-01-10 12:00:00", "2025-01-11", "forecast",
        "2025-01-10 12:00:00", "32", "", "", "", "", some (qAdd 32 3), ""⟩], c6fs.accu⟩ :=
  ⟨by decide, by decide, by decide,
    claim_C6_tomorrow_bcp c6fs "2025-01-11" "2025-01-10 12:00:00" "32" "" 32 3
      (by decide) (by decide) (by decide)⟩

/-- Claim C7 counterexample: `log_forecast` consults no clock at all — from
the empty log it appends a Forecast row for the current date even at an
evening invocation (the model step has no time input; the appended row is
stamped 18:30), so same-day capture is not disallowed at or after 18:00. -/
theorem claim_C7_counterexample :
    logForecastStep [] "2025-01-10" "2025-01-10 18:30:00" "50" "" =
      [mkForecastRow "2025-01-10 18:30:00" "2025-01-10" "50" ""] ∧
    (forecastRowsFor (logForecastStep [] "2025-01-10" "2025-01-10 18:30:00" "50" "")
        "2025-01-10").length = 1 :=
  ⟨by decide, by decide⟩

/-- Claim C7 (amended): the 18:00:00-inclusive cutoff gates only the
AccuWeather same-day capture: `is_after_6pm_local` holds exactly when the
local hour is at least 18, and past the cutoff
`rows_for_today_and_tomorrow` emits no row whose `target_date` is today,
regardless of the change/dedup query results; the NWS `log_forecast` path
has no time gate and is stopped only by an existing Actual row. -/
theorem claim_C7_evening_cutoff :
    (∀ h m s : Nat, isAfter6pmLocal h m s = true ↔ 18 ≤ h) ∧
    (∀ (daily : List DayObj) (h m s : Nat) (ts todayIso tomorrowIso : String)
        (aL fT fTm : Bool) (r : Row),
        isAfter6pmLocal h m s = true → todayIso ≠ tomorrowIso →
        r ∈ rowsForTodayAndTomorrow daily h m s ts todayIso tomorrowIso aL fT fTm →
        r.target_date ≠ todayIso) := by
  constructor
  · intro h m s
    simp [isAfter6pmLocal]
    omega
  · intro daily h m s ts todayIso tomorrowIso aL fT fTm r h6 hne hr
    match daily with
    | [] => simp [rowsForTodayAndTomorrow] at hr
    | [d0] => simp [rowsForTodayAndTomorrow] at hr
    | d0 :: d1 :: rest =>
      simp [rowsForTodayAndTomorrow, h6] at hr
      cases fTm with
      | false =>
        simp at hr
        rw [hr]
        simpa [rowForAccu] using fun hh => hne hh.symm
      | true => simp at hr

theorem claim_C7_witness :
    isAfter6pmLocal 18 0 0 = true ∧ ("2025-01-10" : String) ≠ "2025-01-11" ∧
    rowForAccu ⟨"48", ""⟩ "t" "2025-01-11" ∈
      rowsForTodayAndTomorrow [⟨"50", ""⟩, ⟨"48", ""⟩] 18 0 0 "t" "2025-01-10" "2025-01-11"
        false false false ∧
    (rowForAccu ⟨"48", ""⟩ "t" "2025-01-11").target_date ≠ "2025-01-10" :=
  ⟨by decide, by decide, by decide,
    claim_C7_evening_cutoff.2 [⟨"50", ""⟩, ⟨"48", ""⟩] 18 0 0 "t" "2025-01-10" "2025-01-11"
      false false false (rowForAccu ⟨"48", ""⟩ "t" "2025-01-11")
      (by decide) (by decide) (by decide)⟩

/-- Claim C10 counterexample: on the input string with surrounding
whitespace and an unparseable hour, `_normalize_cli_time` returns the
stripped string, not its raw input unchanged. -/
theorem claim_C10_counterexample :
    pyIntOptL (hourMmSplit (stripL " x:30 ".toList)).1 = none ∧
    normalizeCliTime " x:30 " none = "x:30" ∧
    normalizeCliTime " x:30 " none ≠ " x:30 " :=
  ⟨by decide, by decide, by decide⟩

/-- Claim C10 (amended): the parse helpers are total — whenever the hour
portion fails to parse as an integer, `_normalize_cli_time` returns the
whitespace-stripped input (rather than the input unchanged); the
`YESTERDAY ... MAXIMUM 410 12 AM` bulletin yields `none` for the section
because the two-digit time token is rejected; and `_normalize_cli_time`
itself handles `"12"`/`AM` by returning `"0:12 AM"`. -/
theorem claim_C10_soft_failure :
    (∀ (raw : String) (ampm : Option String),
        pyIntOptL (hourMmSplit (stripL raw.toList)).1 = none →
        normalizeCliTime raw ampm = String.mk (stripL raw.toList)) ∧
    parseCliSections "YESTERDAY\n MAXIMUM 410 12 AM\n" = (none, none) ∧
    normalizeCliTime "12" (some "AM") = "0:12 AM" := by
  refine ⟨?_, by decide, by decide⟩
  intro raw ampm h
  simp only [String.toList] at h
  simp [normalizeCliTime, h]

theorem claim_C10_witness :
    pyIntOptL (hourMmSplit (stripL "y:30".toList)).1 = none ∧
    normalizeCliTime "y:30" none = String.mk (stripL "y:30".toList) :=
  ⟨by decide, claim_C10_soft_failure.1 "y:30" none (by decide)⟩

theorem aux_fcValStep_append (hm0 : Option Int) (acc : List ℚ) (x : Row) :
    fcValStep hm0 acc x = acc ++ fcValStep hm0 [] x := by
  unfold fcValStep
  cases hk : x.forecast_or_actual != "forecast" with
  | true => simp [hk]
  | false =>
    cases hp : floatOrNone x.predicted_high with
    | none => simp [hk, hp]
    | some ph =>
      cases hm0 with
      | none => simp [hk, hp]
      | some hm =>
        cases hf : minutesFromForecastTimeCell x.forecast_time with
        | none => simp [hk, hp, hf]
        | some fm =>
          by_cases hlt : hm < fm
          · simp [hk, hp, hf, hlt]
          · simp [hk, hp, hf, hlt]

theorem aux_dailyFcVals_go (hm0 : Option Int) (rs : List Row) :
    ∀ acc : List ℚ, rs.foldl (fcValStep hm0) acc = acc ++ rs.foldl (fcValStep hm0) [] := by
  induction rs with
  | nil => intro acc; simp
  | cons x rest ih =>
    intro acc
    simp only [List.foldl_cons]
    rw [ih (fcValStep hm0 acc x), ih (fcValStep hm0 [] x), aux_fcValStep_append]
    simp

theorem aux_dailyFcVals_cons (hm0 : Option Int) (x : Row) (rs : List Row) :
    dailyFcVals (x :: rs) hm0 = fcValStep hm0 [] x ++ dailyFcVals rs hm0 := by
  unfold dailyFcVals
  simp only [List.foldl_cons]
  rw [aux_dailyFcVals_go hm0 rs (fcValStep hm0 [] x)]

theorem aux_dailyFcVals_eq_spec (hm0 : Option Int) (rs : List Row) :
    dailyFcVals rs hm0 =
      (rs.filter (fun x => x.forecast_or_actual == "forecast" &&
        (match hm0 with
         | none => true
         | some hm =>
           match minutesFromForecastTimeCell x.forecast_time with
           | some fm => decide (fm ≤ hm)
           | none => false))).filterMap (fun x => floatOrNone x.predicted_high) := by
  induction rs with
  | nil => rfl
  | cons x rest ih =>
    rw [aux_dailyFcVals_cons]
    cases hk : x.forecast_or_actual == "forecast" with
    | false =>
      have hk2 : (x.forecast_or_actual != "forecast") = true := by simp [bne, hk]
      simp [fcValStep, hk2, hk, ih]
    | true =>
      have hk2 : (x.forecast_or_actual != "forecast") = false := by simp [bne, hk]
      cases hp : floatOrNone x.predicted_high with
      | none =>
        cases hm0 with
        | none => simp [fcValStep, hk2, hk, hp, ih]
        | some hm =>
          cases hf : minutesFromForecastTimeCell x.forecast_time with
          | none => simp [fcValStep, hk2, hk, hp, hf, ih]
          | some fm =>
            by_cases hle : fm ≤ hm
            · simp [fcValStep, hk2, hk, hp, hf, hle, ih]
            · simp [fcValStep, hk2, hk, hp, hf, hle, ih]
      | some ph =>
        cases hm0 with
        | none => simp [fcValStep, hk2, hk, hp, ih]
        | some hm =>
          cases hf : minutesFromForecastTimeCell x.forecast_time with
          | none => simp [fcValStep, hk2, hk, hp, hf, ih]
          | some fm =>
            by_cases hlt : hm < fm
            · have hle : ¬(fm ≤ hm) := by omega
              simp [fcValStep, hk2, hk, hp, hf, hlt, hle, ih]
            · have hle : fm ≤ hm := by omega
              simp [fcValStep, hk2, hk, hp, hf, hlt, hle, ih]

/-- Claim C5: the per-day bias computed by the bias engine equals
`actual_high` minus the mean of the spec's pre-high forecast set (the
forecasts issued at or before the high time, or all of the date's
forecasts when the high time is unparseable) and is defined exactly when
that set is non-empty; on the scenario (actual 33 at 1:45 PM, forecasts 30
at 9am, 32 at 11am, 35 at 3pm) the 3pm forecast is excluded and the bias
is 2, as is the engine's average over that single completed day. -/
theorem claim_C5_daily_bias :
    (∀ rs : List Row, dailyBias rs = specDailyBias rs) ∧
    dailyBias sc5rows = some 2 ∧
    computeAvgBiasExcluding sc5rows "" = some 2 := by
  refine ⟨?_, by decide, by decide⟩
  intro rs
  unfold dailyBias dailyBiasAndMean specDailyBias
  cases ha : firstQualActual rs with
  | none => rfl
  | some act =>
    have hv : dailyFcVals rs (highMinOf act) = specPreHighVals rs act := by
      rw [aux_dailyFcVals_eq_spec]
      rfl
    cases hah : floatOrNone act.actual_high with
    | none => simp [hah]
    | some ah =>
      simp only [hah, hv]
      cases hemp : (specPreHighVals rs act).isEmpty <;> simp [hemp]

theorem aux_countRow_append (a b : List Row) (r : Row) :
    countRow (a ++ b) r = countRow a r + countRow b r := by
  simp [countRow, List.filter_append]

theorem aux_countRow_pos (l : List Row) (r : Row) (h : r ∈ l) : 1 ≤ countRow l r := by
  have hm : r ∈ l.filter (fun x => decide (x = r)) := List.mem_filter.mpr ⟨h, by simp⟩
  have hne : l.filter (fun x => decide (x = r)) ≠ [] := List.ne_nil_of_mem hm
  have hp := List.length_pos.mpr hne
  simpa [countRow] using hp

theorem aux_upsertReplace_found (ts d temp tc : String) :
    ∀ (a b : List Row), actualExistsForDate a d = true →
      ∃ a2 : List Row, upsertReplace ts d temp tc (a ++ b) = some (a2 ++ b) := by
  intro a
  induction a with
  | nil => intro b h; simp [actualExistsForDate] at h
  | cons r rest ih =>
    intro b h
    by_cases hp : actCliP d r = true
    · exact ⟨updActual ts d temp tc r :: rest, by simp [upsertReplace, hp]⟩
    · have hb : actCliP d r = false := by simpa using hp
      have h2 : actualExistsForDate rest d = true := by
        simp [actualExistsForDate, List.any_cons, hb] at h
        simpa [actualExistsForDate] using h
      rcases ih b h2 with ⟨a2, ha2⟩
      exact ⟨r :: a2, by simp [upsertReplace, hb, ha2]⟩

theorem aux_upsertReplace_none (ts d temp tc : String) :
    ∀ l : List Row, actualExistsForDate l d = false → upsertReplace ts d temp tc l = none := by
  intro l
  induction l with
  | nil => intro _; rfl
  | cons r rest ih =>
    intro h
    simp [actualExistsForDate, List.any_cons] at h
    obtain ⟨h1, h2⟩ := h
    have h1b : actCliP d r = false := by simpa using h1
    have h2b : actualExistsForDate rest d = false := by
      simpa [actualExistsForDate] using h2
    simp [upsertReplace, h1b, ih h2b]

theorem aux_mem_foldl_extend (x : String) :
    ∀ (l acc : List String), x ∈ acc →
      x ∈ l.foldl (fun acc fn => if acc.contains fn then acc else acc ++ [fn]) acc := by
  intro l
  induction l with
  | nil => intro acc h; exact h
  | cons fn rest ih =>
    intro acc h
    simp only [List.foldl_cons]
    apply ih
    by_cases hc : acc.contains fn = true
    · rw [if_pos hc]; exact h
    · rw [if_neg hc]; exact List.mem_append.mpr (Or.inl h)

theorem aux_contains_of_mem (l : List String) (x : String) (h : x ∈ l) :
    l.contains x = true := by
  induction l with
  | nil => cases h
  | cons a rest ih =>
    rcases List.mem_cons.mp h with h1 | h1
    · simp only [List.contains_cons, Bool.or_eq_true]
      exact Or.inl (by simp [h1])
    · simp only [List.contains_cons, Bool.or_eq_true]
      exact Or.inr (ih h1)

theorem aux_mem_readFieldnames (fileFns : List String) : bcpField ∈ readFieldnames fileFns := by
  unfold readFieldnames
  exact aux_mem_foldl_extend bcpField fileFns (baseHeader ++ [bcpField]) (by decide)

/-- Claim C8 counterexample: when the only Actual row for the date lives in
the AccuWeather file, the upsert's in-place replacement targets the merged
copy of that row — the rewritten row lands in the primary file but the
original AccuWeather row is then read back only once, not twice. -/
theorem claim_C8_counterexample :
    c8accuAct ∈ c8fs.accu ∧
    countRow (readAllRows
      (upsertActualRowFS c8fs "2025-01-10 09:00:00" "2025-01-10" "31" "2:00 PM")) c8accuAct = 1 ∧
    ¬(2 ≤ 1) :=
  ⟨by decide, by decide, by decide⟩

/-- Claim C8 (amended): `_read_all_rows` concatenates the primary and
AccuWeather rows while every rewrite goes to the primary file only, so no
path ever removes an AccuWeather row; the header upgrade never rewrites at
all when fed fieldnames from `_read_all_rows` (they always already contain
the BCP column); and `upsert_actual_row` re-reads each AccuWeather row
twice afterwards provided its in-place replacement does not target an
AccuWeather row (the primary file already holds the Actual row for the
date, or no Actual row for the date exists among the AccuWeather rows). -/
theorem claim_C8_merge_duplication :
    (∀ fs : LogFiles, readAllRows fs = fs.primary ++ fs.accu) ∧
    (∀ (fs : LogFiles) (h : Nat) (ts d temp tc : String) (fns : List String),
        (upsertActualRowFS fs ts d temp tc).accu = fs.accu ∧
        (wtbsFS fs h d).accu = fs.accu ∧
        (logActualTodayFS fs h ts d temp tc).accu = fs.accu ∧
        (upgradeHeaderFS fs fns).accu = fs.accu) ∧
    (∀ fileFns : List String, upgradeHeaderWrites (readFieldnames fileFns) = false) ∧
    (∀ (fs : LogFiles) (fileFns : List String), upgradeHeaderFS fs (readFieldnames fileFns) = fs) ∧
    (∀ (fs : LogFiles) (ts d temp tc : String) (r : Row), r ∈ fs.accu →
        (actualExistsForDate fs.primary d = true ∨ actualExistsForDate fs.accu d = false) →
        2 ≤ countRow (readAllRows (upsertActualRowFS fs ts d temp tc)) r) := by
  refine ⟨fun fs => rfl, ?_, ?_, ?_, ?_⟩
  · intro fs h ts d temp tc fns
    refine ⟨rfl, ?_, ?_, ?_⟩
    · unfold wtbsFS
      split
      · rfl
      · split <;> rfl
    · have hgen : ∀ p1 : List Row,
          (match logActualFreeze (p1 ++ fs.accu) d with
           | some newRows => (⟨newRows, fs.accu⟩ : LogFiles)
           | none => ⟨p1, fs.accu⟩).accu = fs.accu := by
        intro p1
        cases logActualFreeze (p1 ++ fs.accu) d <;> rfl
      unfold logActualTodayFS
      split
      · rfl
      · exact hgen _
    · unfold upgradeHeaderFS
      split <;> rfl
  · intro fileFns
    unfold upgradeHeaderWrites
    rw [aux_contains_of_mem _ _ (aux_mem_readFieldnames fileFns)]
    rfl
  · intro fs fileFns
    unfold upgradeHeaderFS
    rw [if_pos (aux_contains_of_mem _ _ (aux_mem_readFieldnames fileFns))]
  · intro fs ts d temp tc r hr hcond
    have hra : 1 ≤ countRow fs.accu r := aux_countRow_pos fs.accu r hr
    have hmain : 1 ≤ countRow (upsertList (readAllRows fs) ts d temp tc) r := by
      by_cases hp : actualExistsForDate fs.primary d = true
      · rcases aux_upsertReplace_found ts d temp tc fs.primary fs.accu hp with ⟨a2, ha2⟩
        unfold upsertList readAllRows
        rw [ha2]
        rw [aux_countRow_append]
        omega
      · have hpf : actualExistsForDate fs.primary d = false := by simpa using hp
        have hqf : actualExistsForDate fs.accu d = false := by
          rcases hcond with hc | hc
          · exact absurd hc hp
          · exact hc
        have hall : actualExistsForDate (readAllRows fs) d = false := by
          simp [actualExistsForDate, readAllRows, List.any_append]
          constructor
          · simpa [actualExistsForDate] using hpf
          · simpa [actualExistsForDate] using hqf
        unfold upsertList
        rw [aux_upsertReplace_none ts d temp tc _ hall]
        rw [aux_countRow_append]
        have hsplit : countRow (readAllRows fs) r = countRow fs.primary r + countRow fs.accu r := by
          unfold readAllRows
          rw [aux_countRow_append]
        omega
    have : countRow (readAllRows (upsertActualRowFS fs ts d temp tc)) r =
        countRow (upsertList (readAllRows fs) ts d temp tc) r + countRow fs.accu r := by
      unfold upsertActualRowFS readAllRows
      rw [aux_countRow_append]
    omega

theorem claim_C8_witness :
    c4f2 ∈ (⟨[sc5act], [c4f2]⟩ : LogFiles).accu ∧
    actualExistsForDate (⟨[sc5act], [c4f2]⟩ : LogFiles).primary "2025-01-10" = true ∧
    2 ≤ countRow (readAllRows
      (upsertActualRowFS ⟨[sc5act], [c4f2]⟩ "t" "2025-01-10" "31" "2:00 PM")) c4f2 :=
  ⟨by decide, by decide,
    claim_C8_merge_duplication.2.2.2.2 ⟨[sc5act], [c4f2]⟩ "t" "2025-01-10" "31" "2:00 PM" c4f2
      (by decide) (Or.inl (by decide))⟩

theorem aux_countActualCli_append (a b : List Row) (d : String) :
    countActualCli (a ++ b) d = countActualCli a d + countActualCli b d := by
  simp [countActualCli, List.filter_append]

theorem aux_countActualCli_cons (x : Row) (l : List Row) (D : String) :
    countActualCli (x :: l) D = (if actCliP D x then 1 else 0) + countActualCli l D := by
  simp only [countActualCli, List.filter_cons]
  split
  · simp [Nat.add_comm]
  · simp

theorem aux_filter_eq_nil_of (p : Row → Bool) :
    ∀ l : List Row, (∀ r ∈ l, p r = false) → l.filter p = [] := by
  intro l
  induction l with
  | nil => intro _; rfl
  | cons x rest ih =>
    intro h
    rw [List.filter_cons]
    simp [h x (List.mem_cons_self x rest),
      ih fun r hr => h r (List.mem_cons_of_mem x hr)]

theorem aux_count_zero_of_not_exists (l : List Row) (d : String)
    (h : actualExistsForDate l d = false) : countActualCli l d = 0 := by
  have hall : ∀ r ∈ l, actCliP d r = false := by
    intro r hr
    cases hp : actCliP d r with
    | false => rfl
    | true =>
      exfalso
      have ht : actualExistsForDate l d = true := (aux_actualExists_iff l d).mpr ⟨r, hr, hp⟩
      rw [h] at ht
      exact Bool.false_ne_true ht
  simp [countActualCli, aux_filter_eq_nil_of _ l hall]

theorem aux_count_zero_of_no_actual (l : List Row) (D : String)
    (h : ∀ r ∈ l, r.forecast_or_actual ≠ "actual") : countActualCli l D = 0 := by
  have hall : ∀ r ∈ l, actCliP D r = false := by
    intro r hr
    simp [actCliP, h r hr]
  simp [countActualCli, aux_filter_eq_nil_of _ l hall]

theorem aux_countActualCli_set :
    ∀ (l : List Row) (i : Nat) (r r2 : Row) (D : String), l.get? i = some r →
      (∀ Dx : String, actCliP Dx r2 = actCliP Dx r) →
      countActualCli (l.set i r2) D = countActualCli l D := by
  intro l
  induction l with
  | nil => intro i r r2 D hg _; simp at hg
  | cons x rest ih =>
    intro i r r2 D hg hpred
    cases i with
    | zero =>
      rw [List.get?_cons_zero] at hg
      injection hg with hx
      subst hx
      simp only [List.set]
      rw [aux_countActualCli_cons, aux_countActualCli_cons, hpred D]
    | succ n =>
      rw [List.get?_cons_succ] at hg
      simp only [List.set]
      rw [aux_countActualCli_cons, aux_countActualCli_cons, ih n r r2 D hg hpred]

theorem aux_latestFc_some (log : List Row) (d : String) (i : Nat) (r : Row)
    (h : latestFc log d = some (i, r)) :
    latestFcIdx log d = some i ∧ log.get? i = some r := by
  unfold latestFc at h
  cases hj : latestFcIdx log d with
  | none => rw [hj] at h; simp at h
  | some j =>
    rw [hj] at h
    have h2 : Option.map (fun r => (j, r)) (log.get? j) = some (i, r) := h
    cases hg : log.get? j with
    | none => rw [hg] at h2; simp at h2
    | some r0 =>
      rw [hg] at h2
      simp at h2
      obtain ⟨h3, h4⟩ := h2
      subst_vars
      exact ⟨rfl, hg⟩

theorem aux_logActualFreeze_some (rows : List Row) (d : String) (l2 : List Row)
    (h : logActualFreeze rows d = some l2) :
    ∃ i r v, rows.get? i = some r ∧
      l2 = rows.set i { r with bias_corrected_prediction := v } := by
  unfold logActualFreeze at h
  cases hb : computeAvgBiasExcluding rows d with
  | none => rw [hb] at h; simp at h
  | some b =>
    cases hm : computeTodayPreHighMean rows d with
    | none => rw [hb, hm] at h; simp at h
    | some m =>
      rw [hb, hm] at h
      cases hl : latestFc rows d with
      | none => rw [hl] at h; simp at h
      | some ir =>
        obtain ⟨i, r⟩ := ir
        rw [hl] at h
        obtain ⟨hidx, hget⟩ := aux_latestFc_some rows d i r hl
        by_cases hbcp : r.bias_corrected_prediction.isSome
        · simp [hbcp] at h
        · simp only [hbcp, if_false, Bool.false_eq_true] at h
          refine ⟨i, r, some (qAdd m b), hget, ?_⟩
          simp at h
          exact h.symm

theorem aux_updActual_pred (ts d temp tc D : String) (r : Row) (h : actCliP d r = true) :
    actCliP D (updActual ts d temp tc r) = actCliP D r := by
  obtain ⟨h1, h2⟩ := (aux_actCliP_iff d r).mp h
  unfold updActual
  split
  · simp [actCliP, h1, h2]
  · rfl

theorem aux_upsertReplace_count (ts d temp tc D : String) :
    ∀ (l l2 : List Row), upsertReplace ts d temp tc l = some l2 →
      countActualCli l2 D = countActualCli l D := by
  intro l
  induction l with
  | nil => intro l2 h; simp [upsertReplace] at h
  | cons r rest ih =>
    intro l2 h
    by_cases hp : actCliP d r = true
    · simp [upsertReplace, hp] at h
      rw [← h, aux_countActualCli_cons, aux_countActualCli_cons,
        aux_updActual_pred ts d temp tc D r hp]
    · have hb : actCliP d r = false := by simpa using hp
      simp [upsertReplace, hb] at h
      obtain ⟨l2p, h1, h2⟩ := h
      rw [← h2, aux_countActualCli_cons, aux_countActualCli_cons, ih l2p h1]

theorem aux_upsertReplace_none_exists (ts d temp tc : String) :
    ∀ l : List Row, upsertReplace ts d temp tc l = none →
      actualExistsForDate l d = false := by
  intro l
  induction l with
  | nil => intro _; rfl
  | cons r rest ih =>
    intro h
    by_cases hp : actCliP d r = true
    · simp [upsertReplace, hp] at h
    · have hb : actCliP d r = false := by simpa using hp
      simp [upsertReplace, hb] at h
      have := ih h
      simp [actualExistsForDate, List.any_cons, hb]
      simpa [actualExistsForDate] using this

theorem aux_upsertList_count (rows : List Row) (ts d temp tc D : String)
    (h : countActualCli rows D ≤ 1) :
    countActualCli (upsertList rows ts d temp tc) D ≤ 1 := by
  unfold upsertList
  cases hrep : upsertReplace ts d temp tc rows with
  | some l2 =>
    rw [aux_upsertReplace_count ts d temp tc D rows l2 hrep]
    exact h
  | none =>
    rw [aux_countActualCli_append]
    by_cases hD : d = D
    · subst hD
      have h0 : countActualCli rows d = 0 :=
        aux_count_zero_of_not_exists rows d (aux_upsertReplace_none_exists ts d temp tc rows hrep)
      have h1 : countActualCli [mkActualRow ts d temp tc] d ≤ 1 := by
        rw [aux_countActualCli_cons]
        split <;> simp [countActualCli]
      omega
    · have h1 : countActualCli [mkActualRow ts d temp tc] D = 0 := by
        rw [aux_countActualCli_cons]
        simp [countActualCli, actCliP, mkActualRow, hD]
      omega

theorem aux_applyOp_accu (fs : LogFiles) (op : LogOp) : (applyOp fs op).accu = fs.accu := by
  cases op with
  | finalize ts d temp tc => rfl
  | provisional h ts d temp tc =>
    have hgen : ∀ p1 : List Row,
        (match logActualFreeze (p1 ++ fs.accu) d with
         | some newRows => (⟨newRows, fs.accu⟩ : LogFiles)
         | none => ⟨p1, fs.accu⟩).accu = fs.accu := by
      intro p1
      cases logActualFreeze (p1 ++ fs.accu) d <;> rfl
    show (logActualTodayFS fs h ts d temp tc).accu = fs.accu
    unfold logActualTodayFS
    split
    · rfl
    · exact hgen _

theorem aux_logActual_count (fs : LogFiles) (h : Nat) (ts d temp tc D : String)
    (haccu0 : countActualCli fs.accu D = 0)
    (hone : countActualCli (readAllRows fs) D ≤ 1) :
    countActualCli (readAllRows (logActualTodayFS fs h ts d temp tc)) D ≤ 1 := by
  have hreadsplit : countActualCli (readAllRows fs) D =
      countActualCli fs.primary D + countActualCli fs.accu D := by
    unfold readAllRows
    rw [aux_countActualCli_append]
  have hgoal : ∀ p1 : List Row, countActualCli p1 D ≤ 1 →
      countActualCli (readAllRows (match logActualFreeze (p1 ++ fs.accu) d with
        | some newRows => (⟨newRows, fs.accu⟩ : LogFiles)
        | none => ⟨p1, fs.accu⟩)) D ≤ 1 := by
    intro p1 hp1
    cases hfr : logActualFreeze (p1 ++ fs.accu) d with
    | none =>
      unfold readAllRows
      simp only []
      rw [aux_countActualCli_append]
      omega
    | some nr =>
      obtain ⟨i, r, v, hg, hnr⟩ := aux_logActualFreeze_some _ _ _ hfr
      unfold readAllRows
      simp only []
      rw [hnr, aux_countActualCli_append,
        aux_countActualCli_set (p1 ++ fs.accu) i r
          { r with bias_corrected_prediction := v } D hg (fun Dx => rfl),
        aux_countActualCli_append]
      omega
  have hcount1 : countActualCli (if actualExistsForDate fs.primary d then fs.primary
      else fs.primary ++ [mkActualRow ts d temp tc]) D ≤ 1 := by
    split
    · omega
    · rename_i he
      have hef : actualExistsForDate fs.primary d = false := by simpa using he
      rw [aux_countActualCli_append]
      by_cases hD : d = D
      · subst hD
        have h0 : countActualCli fs.primary d = 0 := aux_count_zero_of_not_exists _ _ hef
        have h1 : countActualCli [mkActualRow ts d temp tc] d ≤ 1 := by
          rw [aux_countActualCli_cons]
          split <;> simp [countActualCli]
        omega
      · have h1 : countActualCli [mkActualRow ts d temp tc] D = 0 := by
          rw [aux_countActualCli_cons]
          simp [countActualCli, actCliP, mkActualRow, hD]
        omega
  unfold logActualTodayFS
  split
  · exact hone
  · exact hgoal _ hcount1

theorem aux_finalize_count (fs : LogFiles) (ts d temp tc D : String)
    (haccu0 : countActualCli fs.accu D = 0)
    (hone : countActualCli (readAllRows fs) D ≤ 1) :
    countActualCli (readAllRows (upsertActualRowFS fs ts d temp tc)) D ≤ 1 := by
  unfold upsertActualRowFS
  have hup := aux_upsertList_count (readAllRows fs) ts d temp tc D hone
  show countActualCli (upsertList (readAllRows fs) ts d temp tc ++ fs.accu) D ≤ 1
  rw [aux_countActualCli_append]
  omega

/-- Claim C1 counterexample: a log whose only Actual row for the date sits
in the AccuWeather file satisfies the claim's precondition (at most one
Actual row for D in the merged log), yet one provisional capture appends a
second Actual for D — the duplicate check of the provisional path reads
only the primary file. -/
theorem claim_C1_counterexample :
    countActualCli (readAllRows c1fs) "2025-01-10" ≤ 1 ∧
    countActualCli (readAllRows (applyOp c1fs
      (LogOp.provisional 18 "2025-01-10 18:05:00" "2025-01-10" "31" "1:00 PM"))) "2025-01-10" = 2 ∧
    ¬(2 ≤ 1) :=
  ⟨by decide, by decide, by decide⟩

/-- Claim C1 (amended): for every date D, any sequence of provisional
captures and finalize upserts preserves "at most one Actual row keyed to
D" in the merged log, provided the AccuWeather file contains no Actual
rows (which the AccuWeather logger never writes): the provisional path
appends only when no Actual for D exists in the primary file, and the
upsert replaces the first matching Actual row in place. -/
theorem claim_C1_at_most_one_actual (ops : List LogOp) (fs : LogFiles) (D : String)
    (haccu : ∀ r ∈ fs.accu, r.forecast_or_actual ≠ "actual")
    (hone : countActualCli (readAllRows fs) D ≤ 1) :
    countActualCli (readAllRows (ops.foldl applyOp fs)) D ≤ 1 := by
  induction ops generalizing fs with
  | nil => exact hone
  | cons op rest ih =>
    simp only [List.foldl_cons]
    apply ih
    · rw [aux_applyOp_accu]
      exact haccu
    · have haccu0 : countActualCli fs.accu D = 0 := aux_count_zero_of_no_actual _ _ haccu
      cases op with
      | provisional h ts d temp tc => exact aux_logActual_count fs h ts d temp tc D haccu0 hone
      | finalize ts d temp tc => exact aux_finalize_count fs ts d temp tc D haccu0 hone

theorem claim_C1_witness :
    (∀ r ∈ (⟨[sc5f1], [c4f2]⟩ : LogFiles).accu, r.forecast_or_actual ≠ "actual") ∧
    countActualCli (readAllRows ⟨[sc5f1], [c4f2]⟩) "2025-01-10" ≤ 1 ∧
    countActualCli (readAllRows
      ([LogOp.provisional 18 "2025-01-10 18:05:00" "2025-01-10" "31" "1:00 PM",
        LogOp.finalize "2025-01-11 09:00:00" "2025-01-10" "32" "1:30 PM"].foldl applyOp
        ⟨[sc5f1], [c4f2]⟩)) "2025-01-10" ≤ 1 :=
  ⟨by decide, by decide,
    claim_C1_at_most_one_actual
      [LogOp.provisional 18 "2025-01-10 18:05:00" "2025-01-10" "31" "1:00 PM",
       LogOp.finalize "2025-01-11 09:00:00" "2025-01-10" "32" "1:30 PM"]
      ⟨[sc5f1], [c4f2]⟩ "2025-01-10" (by decide) (by decide)⟩

theorem aux_map_rowSig_set :
    ∀ (l : List Row) (i : Nat) (r r2 : Row), l.get? i = some r → rowSig r2 = rowSig r →
      (l.set i r2).map rowSig = l.map rowSig := by
  intro l
  induction l with
  | nil => intro i r r2 hg _; simp at hg
  | cons x rest ih =>
    intro i r r2 hg hsig
    cases i with
    | zero =>
      rw [List.get?_cons_zero] at hg
      injection hg with hx
      subst hx
      simp only [List.set, List.map_cons]
      rw [hsig]
    | succ n =>
      rw [List.get?_cons_succ] at hg
      simp only [List.set, List.map_cons]
      rw [ih n r r2 hg hsig]

theorem aux_get_set_self :
    ∀ (l : List Row) (i : Nat) (r r2 : Row), l.get? i = some r →
      (l.set i r2).get? i = some r2 := by
  intro l
  induction l with
  | nil => intro i r r2 hg; simp at hg
  | cons x rest ih =>
    intro i r r2 hg
    cases i with
    | zero => rfl
    | succ n =>
      rw [List.get?_cons_succ] at hg
      simp only [List.set, List.get?_cons_succ]
      exact ih n r r2 hg

theorem aux_wtbsCore_some (log : List Row) (d : String) (l2 : List Row)
    (h : wtbsCore log d = some l2) :
    ∃ i r b m, latestFc log d = some (i, r) ∧ r.bias_corrected_prediction = none ∧
      computeAvgBiasAndTodayMean log d = (some b, some m) ∧
      l2 = log.set i { r with bias_corrected_prediction := some (qAdd m b) } := by
  unfold wtbsCore at h
  cases hl : latestFc log d with
  | none => rw [hl] at h; simp at h
  | some ir =>
    obtain ⟨i, r⟩ := ir
    rw [hl] at h
    have h2 : (if r.bias_corrected_prediction.isSome then none
        else match computeAvgBiasAndTodayMean log d with
          | (some b, some m) =>
            some (log.set i { r with bias_corrected_prediction := some (qAdd m b) })
          | _ => none) = some l2 := h
    by_cases hb : r.bias_corrected_prediction.isSome
    · rw [if_pos hb] at h2
      simp at h2
    · have hbn : r.bias_corrected_prediction = none := by
        cases hv : r.bias_corrected_prediction with
        | none => rfl
        | some q => rw [hv] at hb; simp at hb
      rw [if_neg hb] at h2
      cases hcab : computeAvgBiasAndTodayMean log d with
      | mk ob om =>
        rw [hcab] at h2
        cases ob with
        | none => simp at h2
        | some b =>
          cases om with
          | none => simp at h2
          | some m =>
            simp at h2
            exact ⟨i, r, b, m, rfl, hbn, rfl, h2.symm⟩

theorem aux_dbm_actual (rs : List Row) (p : ℚ × ℚ) (h : dailyBiasAndMean rs = some p) :
    ∃ act ∈ rs, act.forecast_or_actual = "actual" ∧ (floatOrNone act.actual_high).isSome := by
  unfold dailyBiasAndMean at h
  cases ha : firstQualActual rs with
  | none => rw [ha] at h; simp at h
  | some act =>
    have hmem : act ∈ rs := List.mem_of_find?_eq_some ha
    have hpred := List.find?_some ha
    simp at hpred
    exact ⟨act, hmem, hpred.1, hpred.2⟩

theorem aux_cab_todayMean (rows : List Row) (today : String) (m : ℚ)
    (h : (computeAvgBiasAndTodayMean rows today).2 = some m) :
    ∃ r ∈ rows, r.forecast_or_actual = "actual" ∧ r.cli_date = today ∧
      (floatOrNone r.actual_high).isSome := by
  have haux : ∀ (ds : List String) (st : List ℚ × Option ℚ),
      (ds.foldl (cabStep rows today) st).2 = some m →
      st.2 = some m ∨ ∃ r ∈ rows, r.forecast_or_actual = "actual" ∧ r.cli_date = today ∧
        (floatOrNone r.actual_high).isSome := by
    intro ds
    induction ds with
    | nil => intro st h0; exact Or.inl h0
    | cons dd rest ih =>
      intro st h0
      simp only [List.foldl_cons] at h0
      rcases ih (cabStep rows today st dd) h0 with h1 | h1
      · unfold cabStep at h1
        cases hdb : dailyBiasAndMean (groupFor rows dd) with
        | none => rw [hdb] at h1; exact Or.inl h1
        | some p =>
          rw [hdb] at h1
          have h1b : (if (dd == today) = true then some p.2 else st.2) = some m := h1
          by_cases hdd : (dd == today) = true
          · right
            obtain ⟨act, hmem, ha1, ha2⟩ := aux_dbm_actual _ p hdb
            have hmem2 : act ∈ rows := (List.mem_filter.mp hmem).1
            have hkeyP : rowDateKey act = some dd := by
              have hkb := (List.mem_filter.mp hmem).2
              simpa using hkb
            have hcli : act.cli_date = dd := by
              unfold rowDateKey at hkeyP
              rw [if_pos (by simp [ha1] : (act.forecast_or_actual == "actual") = true)] at hkeyP
              by_cases hce : (act.cli_date == "") = true
              · rw [if_pos hce] at hkeyP
                simp at hkeyP
              · rw [if_neg hce] at hkeyP
                exact Option.some.inj hkeyP
            have hdd2 : dd = today := by simpa using hdd
            exact ⟨act, hmem2, ha1, hcli.trans hdd2, ha2⟩
          · rw [if_neg hdd] at h1b
            exact Or.inl h1b
      · exact Or.inr h1
  have h2 : ((groupDates rows).foldl (cabStep rows today) ([], none)).2 = some m := h
  rcases haux (groupDates rows) ([], none) h2 with h3 | h3
  · simp at h3
  · exact h3

/-- Claim C4 counterexample: with a non-empty AccuWeather file whose
forecast row is the latest today-forecast, the bias-freeze step rewrites
the field again on the second call (each call re-reads the merged rows, so
a fresh blank copy of the AccuWeather row is selected every time) — the
second call is not a no-op. -/
theorem claim_C4_counterexample :
    wtbsFS (wtbsFS c4fs 18 "2025-01-10") 18 "2025-01-10" ≠ wtbsFS c4fs 18 "2025-01-10" ∧
    c4fs.accu ≠ [] :=
  ⟨by decide, by decide⟩

/-- Claim C4 (amended): with an empty AccuWeather file the bias-freeze step
is idempotent — a second call for the same date is a no-op; regardless of
the AccuWeather file, the step writes only when the BCP cell of the
most-recently-timestamped today-forecast row is blank, and any write
requires an Actual row (with a parseable `actual_high`) for the date. -/
theorem claim_C4_freeze_once :
    (∀ (fs : LogFiles) (h : Nat) (d : String), fs.accu = [] →
        wtbsFS (wtbsFS fs h d) h d = wtbsFS fs h d) ∧
    (∀ (fs : LogFiles) (h : Nat) (d : String) (i : Nat) (r : Row),
        latestFc (readAllRows fs) d = some (i, r) → r.bias_corrected_prediction ≠ none →
        wtbsFS fs h d = fs) ∧
    (∀ (fs : LogFiles) (h : Nat) (d : String), wtbsFS fs h d ≠ fs →
        ∃ r ∈ readAllRows fs, r.forecast_or_actual = "actual" ∧ r.cli_date = d ∧
          (floatOrNone r.actual_high).isSome) := by
  refine ⟨?_, ?_, ?_⟩
  · intro fs h d haccu
    by_cases hh : h < 18
    · simp [wtbsFS, hh]
    · cases hc : wtbsCore (readAllRows fs) d with
      | none =>
        have hid : wtbsFS fs h d = fs := by simp [wtbsFS, hh, hc]
        rw [hid]
        exact hid
      | some l2 =>
        have h1 : wtbsFS fs h d = ⟨l2, fs.accu⟩ := by simp [wtbsFS, hh, hc]
        obtain ⟨i, r, b, m, hl, hbn, hcab, hl2⟩ := aux_wtbsCore_some _ _ _ hc
        have hread2 : readAllRows (⟨l2, fs.accu⟩ : LogFiles) = l2 := by
          simp [readAllRows, haccu]
        have hget : (readAllRows fs).get? i = some r := (aux_latestFc_some _ _ _ _ hl).2
        have hidx : latestFcIdx (readAllRows fs) d = some i := (aux_latestFc_some _ _ _ _ hl).1
        have hsig : rowSig { r with bias_corrected_prediction := some (qAdd m b) } = rowSig r :=
          rfl
        have hidx2 : latestFcIdx l2 d = some i := by
          rw [hl2]
          unfold latestFcIdx at hidx ⊢
          rw [aux_map_rowSig_set _ _ _ _ hget hsig]
          exact hidx
        have hget2 : l2.get? i =
            some { r with bias_corrected_prediction := some (qAdd m b) } := by
          rw [hl2]
          exact aux_get_set_self _ _ _ _ hget
        have hlat2 : latestFc l2 d =
            some (i, { r with bias_corrected_prediction := some (qAdd m b) }) := by
          unfold latestFc
          rw [hidx2]
          show Option.map (fun rr => (i, rr)) (l2.get? i) =
            some (i, { r with bias_corrected_prediction := some (qAdd m b) })
          rw [hget2]
          rfl
        have hc2 : wtbsCore l2 d = none := by
          unfold wtbsCore
          rw [hlat2]
          simp
        rw [h1]
        simp [wtbsFS, hh, hread2, hc2]
  · intro fs h d i r hl hbne
    by_cases hh : h < 18
    · simp [wtbsFS, hh]
    · have hs : r.bias_corrected_prediction.isSome = true := by
        cases hv : r.bias_corrected_prediction with
        | none => exact absurd hv hbne
        | some q => rfl
      have hc : wtbsCore (readAllRows fs) d = none := by
        unfold wtbsCore
        rw [hl]
        simp [hs]
      simp [wtbsFS, hh, hc]
  · intro fs h d hne
    by_cases hh : h < 18
    · exact absurd (by simp [wtbsFS, hh]) hne
    · cases hc : wtbsCore (readAllRows fs) d with
      | none => exact absurd (by simp [wtbsFS, hh, hc]) hne
      | some l2 =>
        obtain ⟨i, r, b, m, hl, hbn, hcab, hl2⟩ := aux_wtbsCore_some _ _ _ hc
        have hm : (computeAvgBiasAndTodayMean (readAllRows fs) d).2 = some m := by
          rw [hcab]
        exact aux_cab_todayMean _ _ _ hm

theorem claim_C4_witness :
    (⟨[c4act, c4f1, c4f2], []⟩ : LogFiles).accu = [] ∧
    wtbsFS (wtbsFS ⟨[c4act, c4f1, c4f2], []⟩ 18 "2025-01-10") 18 "2025-01-10" =
      wtbsFS ⟨[c4act, c4f1, c4f2], []⟩ 18 "2025-01-10" :=
  ⟨rfl, claim_C4_freeze_once.1 ⟨[c4act, c4f1, c4f2], []⟩ 18 "2025-01-10" rfl⟩

theorem aux_digitChar_table : ∀ k : Nat, k < 10 → Nat.digitChar k = Char.ofNat (48 + k) := by
  intro k hk
  interval_cases k <;> rfl

theorem aux_digit_exists (c : Char) (h : isAsciiDigitChar c = true) :
    ∃ k : Fin 10, c = Nat.digitChar k.val := by
  simp [isAsciiDigitChar, Bool.and_eq_true] at h
  obtain ⟨h1, h2⟩ := h
  have hb1 : 48 ≤ c.toNat := h1
  have hb2 : c.toNat ≤ 57 := h2
  refine ⟨⟨c.toNat - 48, by omega⟩, ?_⟩
  rw [aux_digitChar_table (c.toNat - 48) (by omega)]
  have he : 48 + (c.toNat - 48) = c.toNat := by omega
  rw [he, Char.ofNat_toNat]

theorem aux_digit_char_facts (c : Char) (h : isAsciiDigitChar c = true) :
    isSpaceChar c = false ∧ c ≠ ':' ∧ c ≠ '+' ∧ c ≠ '-' := by
  refine ⟨?_, ?_, ?_, ?_⟩
  · cases hsp : isSpaceChar c with
    | false => rfl
    | true =>
      exfalso
      unfold isSpaceChar at hsp
      simp at hsp
      rcases hsp with ((((h1 | h1) | h1) | h1) | h1) | h1 <;>
        (subst h1; exact absurd h (by decide))
  · intro heq; subst heq; exact absurd h (by decide)
  · intro heq; subst heq; exact absurd h (by decide)
  · intro heq; subst heq; exact absurd h (by decide)

theorem aux_dc_not_space : ∀ k : Fin 10, isSpaceChar (Nat.digitChar k.val) = false := by decide

theorem aux_dc_ne0 : ∀ k : Fin 10, k.val = 0 ∨ Nat.digitChar k.val ≠ '0' := by decide

theorem aux_round1 : ∀ k : Fin 10,
    (pyIntOptL [Nat.digitChar k.val]).map intToChars = some [Nat.digitChar k.val] := by decide

theorem aux_round2 : ∀ k1 k2 : Fin 10, k1.val ≠ 0 →
    (pyIntOptL [Nat.digitChar k1.val, Nat.digitChar k2.val]).map intToChars =
      some [Nat.digitChar k1.val, Nat.digitChar k2.val] := by decide

theorem aux_dropWhile_head (l : List Char)
    (h : ∀ c, l.head? = some c → isSpaceChar c = false) :
    l.dropWhile isSpaceChar = l := by
  cases l with
  | nil => rfl
  | cons c cs =>
    rw [List.dropWhile_cons, h c rfl]
    simp

theorem aux_stripL_edges (l : List Char)
    (hh : ∀ c, l.head? = some c → isSpaceChar c = false)
    (hr : ∀ c, l.reverse.head? = some c → isSpaceChar c = false) :
    stripL l = l := by
  unfold stripL
  rw [aux_dropWhile_head l hh, aux_dropWhile_head l.reverse hr, List.reverse_reverse]

theorem aux_strip_trailing (xs : List Char) (x0 : Char) (xs0 : List Char)
    (hshape : xs = x0 :: xs0)
    (hh : isSpaceChar x0 = false)
    (hr : ∀ c, xs.reverse.head? = some c → isSpaceChar c = false) :
    stripL (xs ++ [' ']) = xs := by
  unfold stripL
  have h1 : (xs ++ [' ']).dropWhile isSpaceChar = xs ++ [' '] := by
    apply aux_dropWhile_head
    intro c hc
    rw [hshape] at hc
    simp at hc
    rw [← hc]
    exact hh
  rw [h1, List.reverse_append]
  simp only [List.reverse_cons, List.reverse_nil, List.nil_append, List.singleton_append]
  rw [List.dropWhile_cons]
  have hsp : isSpaceChar ' ' = true := rfl
  rw [hsp]
  simp only [if_true]
  rw [aux_dropWhile_head xs.reverse hr, List.reverse_reverse]

theorem aux_norm_compact_core (k1 k2 : Fin 10) (m1 m2 : Char) (raw : List Char)
    (ap : Option String)
    (hm2 : isAsciiDigitChar m2 = true)
    (hstrip : stripL raw = raw)
    (hcolon : raw.contains ':' = false)
    (hzfill : pyZfill raw 4 = [Nat.digitChar k1.val, Nat.digitChar k2.val, m1, m2])
    (hpad : List.replicate (4 - raw.length) '0' ++ raw =
      [Nat.digitChar k1.val, Nat.digitChar k2.val, m1, m2])
    (hap : ap = none ∨ ap = some "AM" ∨ ap = some "PM") :
    normalizeCliTime (String.mk raw) ap = specCompactNormalize (String.mk raw) ap := by
  have hsplitRaw : hourMmSplit raw =
      ((if Nat.digitChar k1.val = '0' then [Nat.digitChar k2.val]
        else [Nat.digitChar k1.val, Nat.digitChar k2.val]), [m1, m2]) := by
    unfold hourMmSplit
    rw [hcolon]
    simp only [Bool.false_eq_true, if_false]
    rw [hzfill]
    simp [Option.some.injEq]
  have hround : (pyIntOptL (if Nat.digitChar k1.val = '0' then [Nat.digitChar k2.val]
        else [Nat.digitChar k1.val, Nat.digitChar k2.val])).map intToChars
      = some (if Nat.digitChar k1.val = '0' then [Nat.digitChar k2.val]
        else [Nat.digitChar k1.val, Nat.digitChar k2.val]) := by
    by_cases hk : Nat.digitChar k1.val = '0'
    · rw [if_pos hk]
      exact aux_round1 k2
    · rw [if_neg hk]
      refine aux_round2 k1 k2 ?_
      intro h0
      exact hk (by rw [h0]; rfl)
  cases hpi : pyIntOptL (if Nat.digitChar k1.val = '0' then [Nat.digitChar k2.val]
      else [Nat.digitChar k1.val, Nat.digitChar k2.val]) with
  | none =>
    rw [hpi] at hround
    exact Option.noConfusion hround
  | some n =>
    rw [hpi] at hround
    have hic : intToChars n = (if Nat.digitChar k1.val = '0' then [Nat.digitChar k2.val]
        else [Nat.digitChar k1.val, Nat.digitChar k2.val]) := Option.some.inj hround
    have hshape : ∃ x0 t, (if Nat.digitChar k1.val = '0' then [Nat.digitChar k2.val]
        else [Nat.digitChar k1.val, Nat.digitChar k2.val]) = x0 :: t ∧
        isSpaceChar x0 = false := by
      by_cases hk : Nat.digitChar k1.val = '0'
      · exact ⟨Nat.digitChar k2.val, [], by rw [if_pos hk], aux_dc_not_space k2⟩
      · exact ⟨Nat.digitChar k1.val, [Nat.digitChar k2.val], by rw [if_neg hk],
          aux_dc_not_space k1⟩
    obtain ⟨x0, t, hx, hx0⟩ := hshape
    have htl : stripL (String.mk raw).toList = raw := hstrip
    have hcode : normalizeCliTime (String.mk raw) ap =
        String.mk (stripL ((x0 :: t) ++ [':'] ++ [m1, m2] ++ [' '] ++
          upperL (stripL (ap.getD "").toList))) := by
      simp only [normalizeCliTime]
      rw [htl, hsplitRaw]
      simp only [hpi]
      simp only [hic, hx]
    have hpad2 : List.replicate (4 - (String.mk raw).toList.length) '0' ++
        (String.mk raw).toList = [Nat.digitChar k1.val, Nat.digitChar k2.val, m1, m2] := hpad
    have hm2s : isSpaceChar m2 = false := (aux_digit_char_facts m2 hm2).1
    rcases hap with rfl | rfl | rfl
    · have hspec : specCompactNormalize (String.mk raw) none =
          String.mk ((x0 :: t) ++ [':'] ++ [m1, m2]) := by
        simp only [specCompactNormalize]
        rw [hpad2]
        simp [Option.some.injEq, hx]
      rw [hcode, hspec]
      have hap0 : upperL (stripL ((none : Option String).getD "").toList) = [] := rfl
      rw [hap0, List.append_nil]
      have hst := aux_strip_trailing ((x0 :: t) ++ [':'] ++ [m1, m2]) x0
        (t ++ [':'] ++ [m1, m2]) (by simp) hx0 (by
          intro c hc
          simp [List.reverse_append] at hc
          subst hc
          exact hm2s)
      rw [hst]
    · have hspec : specCompactNormalize (String.mk raw) (some "AM") =
          String.mk ((x0 :: t) ++ [':'] ++ [m1, m2] ++ [' '] ++ ['A', 'M']) := by
        simp only [specCompactNormalize]
        rw [hpad2]
        simp [Option.some.injEq, hx]
      rw [hcode, hspec]
      have hapAM : upperL (stripL ((some "AM").getD "").toList) = ['A', 'M'] := rfl
      rw [hapAM]
      have hse := aux_stripL_edges ((x0 :: t) ++ [':'] ++ [m1, m2] ++ [' '] ++ ['A', 'M']) (by
          intro c hc
          simp at hc
          subst hc
          exact hx0) (by
          intro c hc
          simp [List.reverse_append] at hc
          subst hc
          rfl)
      rw [hse]
    · have hspec : specCompactNormalize (String.mk raw) (some "PM") =
          String.mk ((x0 :: t) ++ [':'] ++ [m1, m2] ++ [' '] ++ ['P', 'M']) := by
        simp only [specCompactNormalize]
        rw [hpad2]
        simp [Option.some.injEq, hx]
      rw [hcode, hspec]
      have hapPM : upperL (stripL ((some "PM").getD "").toList) = ['P', 'M'] := rfl
      rw [hapPM]
      have hse := aux_stripL_edges ((x0 :: t) ++ [':'] ++ [m1, m2] ++ [' '] ++ ['P', 'M']) (by
          intro c hc
          simp at hc
          subst hc
          exact hx0) (by
          intro c hc
          simp [List.reverse_append] at hc
          subst hc
          rfl)
      rw [hse]


theorem aux_contains_colon (l : List Char) (h : ∀ x ∈ l, isAsciiDigitChar x = true) :
    l.contains ':' = false := by
  induction l with
  | nil => rfl
  | cons a as ih =>
    have hne : a ≠ ':' := (aux_digit_char_facts a (h a (List.mem_cons_self a as))).2.1
    rw [List.contains_cons]
    have h1 : (':' == a) = false := beq_eq_false_iff_ne.mpr (fun he => hne he.symm)
    rw [h1, ih (fun x hx => h x (List.mem_cons_of_mem a hx))]
    rfl

theorem aux_stripL_digits (l : List Char) (h : ∀ x ∈ l, isAsciiDigitChar x = true) :
    stripL l = l := by
  apply aux_stripL_edges
  · intro c hc
    have hm : c ∈ l := List.mem_of_mem_head? (Option.mem_def.mpr hc)
    exact (aux_digit_char_facts c (h c hm)).1
  · intro c hc
    have hm : c ∈ l := by
      have hmr := List.mem_of_mem_head? (Option.mem_def.mpr hc)
      rwa [List.mem_reverse] at hmr
    exact (aux_digit_char_facts c (h c hm)).1

theorem aux_pyZfill3 (a b c : Char) (h1 : a ≠ '+') (h2 : a ≠ '-') :
    pyZfill [a, b, c] 4 = '0' :: [a, b, c] := by
  unfold pyZfill
  simp [h1, h2]

/-- Claim C9: for a section whose usable MAXIMUM line carries an all-digits
temperature, a compact 3-4 digit time token and an AM/PM marker, the
token-level extraction of `_parse_cli_sections` returns that temperature
paired with the normalized time; compact-time normalization agrees with
the spec's pad-to-4/split/strip-leading-zero/reassemble algorithm on every
3-4 digit token with an optional marker; and the bulletin containing
`TODAY ... MAXIMUM 75 145 PM` (the section keyword and the MAXIMUM line on
separate lines, since a keyword line only switches sections) parses to
`("75", "1:45 PM")`. -/
theorem claim_C9_compact_time :
    (∀ (l : List Char) (ap : Option String), l.all isAsciiDigitChar = true →
        l.length = 3 ∨ l.length = 4 → (ap = none ∨ ap = some "AM" ∨ ap = some "PM") →
        normalizeCliTime (String.mk l) ap = specCompactNormalize (String.mk l) ap) ∧
    (∀ (temp t ap : String) (rest : List String),
        pyIsDigitStr temp = true → timeTokenMatch t.toList = true →
        (ap = "AM" ∨ ap = "PM") →
        maximumParse ("MAXIMUM" :: temp :: t :: ap :: rest) =
          some (temp, normalizeCliTime t (some ap))) ∧
    parseCliSections "TODAY STUFF\n MAXIMUM 75 145 PM\n" = (some ("75", "1:45 PM"), none) ∧
    normalizeCliTime "145" (some "PM") = "1:45 PM" := by
  refine ⟨?_, ?_, by decide, by decide⟩
  · intro l ap hdig hlen hap
    have hmem : ∀ x ∈ l, isAsciiDigitChar x = true := by
      intro x hx
      exact List.all_eq_true.mp hdig x hx
    rcases hlen with h3 | h4
    · obtain ⟨a, b, c, rfl⟩ : ∃ a b c, l = [a, b, c] := by
        cases l with
        | nil => simp at h3
        | cons a l1 =>
          cases l1 with
          | nil => simp at h3
          | cons b l2 =>
            cases l2 with
            | nil => simp at h3
            | cons c l3 =>
              cases l3 with
              | nil => exact ⟨a, b, c, rfl⟩
              | cons d l4 => simp at h3
      have ha : isAsciiDigitChar a = true := hmem a (by simp)
      have hc : isAsciiDigitChar c = true := hmem c (by simp)
      obtain ⟨k2, rfl⟩ := aux_digit_exists a ha
      have hf := aux_digit_char_facts (Nat.digitChar k2.val) ha
      apply aux_norm_compact_core ⟨0, by omega⟩ k2 b c _ ap hc
      · exact aux_stripL_digits _ hmem
      · exact aux_contains_colon _ hmem
      · exact aux_pyZfill3 _ b c hf.2.2.1 hf.2.2.2
      · simp [Nat.digitChar]
      · exact hap
    · obtain ⟨a, b, c, d, rfl⟩ : ∃ a b c d, l = [a, b, c, d] := by
        cases l with
        | nil => simp at h4
        | cons a l1 =>
          cases l1 with
          | nil => simp at h4
          | cons b l2 =>
            cases l2 with
            | nil => simp at h4
            | cons c l3 =>
              cases l3 with
              | nil => simp at h4
              | cons d l4 =>
                cases l4 with
                | nil => exact ⟨a, b, c, d, rfl⟩
                | cons e l5 => simp at h4
      have ha : isAsciiDigitChar a = true := hmem a (by simp)
      have hb : isAsciiDigitChar b = true := hmem b (by simp)
      have hd : isAsciiDigitChar d = true := hmem d (by simp)
      obtain ⟨k1, rfl⟩ := aux_digit_exists a ha
      obtain ⟨k2, rfl⟩ := aux_digit_exists b hb
      apply aux_norm_compact_core k1 k2 c d _ ap hd
      · exact aux_stripL_digits _ hmem
      · exact aux_contains_colon _ hmem
      · unfold pyZfill
        rw [if_pos (by simp)]
      · simp
      · exact hap
  · intro temp t ap rest hdigit htok hap
    have htok2 : timeTokenMatch t.data = true := htok
    rcases hap with rfl | rfl <;>
      simp [maximumParse, pyIndexOf, pyIndexOfAux, hdigit, htok2]

theorem claim_C9_witness :
    pyIsDigitStr "75" = true ∧ timeTokenMatch "145".toList = true ∧
    maximumParse ["MAXIMUM", "75", "145", "PM"] =
      some ("75", normalizeCliTime "145" (some "PM")) :=
  ⟨by decide, by decide,
    claim_C9_compact_time.2.1 "75" "145" "PM" [] (by decide) (by decide) (Or.inr rfl)⟩
